import Mathlib

/-!
# Verification of the notjs execution-session subsystem

A shallow embedding, in Lean 4, of the core of the `notjs` code-execution
service: the per-language executors (`CExecutor`, `CppExecutor`, `GoExecutor`,
`RustExecutor`, `JavaExecutor`), the naming utilities (`NotJSUtils`), the
process/artifact owner (`ExecutionHandle.forceCleanup`), and the WebSocket
session handler (`TerminalWebSocketHandler`).

Pure string manipulation is embedded directly; the effectful parts (file
writes, process spawns, the synchronous `waitFor` on the compiler) are
embedded as functions that take the environment's responses (random name
fragments, compiler exit codes) as explicit inputs and return the list of
performed effects as an explicit event trace.  Concurrency in
`ExecutionHandle.forceCleanup` is embedded as a small-step interleaving
machine over the double-checked-locking structure of the Java method.
-/

set_option autoImplicit false

namespace NotJS

/-! ### Java text primitives

Models of the `java.lang` string predicates the source relies on,
restricted to the ASCII range the service actually handles. -/

/-- Model of `java.lang.Character.isWhitespace` on the ASCII range:
space, `\t`, `\n`, vertical tab, form feed, `\r`, and the file/group/record/
unit separators `\x1C`-`\x1F`. -/
def javaIsWhitespace (c : Char) : Bool :=
  c = ' ' || c = '\t' || c = '\n' || c = '\x0B' || c = '\x0C' || c = '\r' ||
    ('\x1C' ≤ c && c ≤ '\x1F')

/-- Model of `java.lang.String.isBlank`: every character is whitespace
(true in particular for the empty string). -/
def javaIsBlank (s : String) : Bool :=
  s.data.all javaIsWhitespace

/-- Model of `java.util.List.toString` as used in the `IllegalArgumentException`
messages: `[e1, e2, ...]`. -/
def javaListToString (xs : List String) : String :=
  "[" ++ String.intercalate ", " xs ++ "]"

/-! ### NotJSUtils (src/main/java/dev/chol/notjs/util/NotJSUtils.java)

`RandomStringUtils.randomAlphanumeric(8)` draws are taken as explicit
inputs (`frag` parameters) so that naming is a pure function of the draw. -/

/-- `NotJSUtils.TEMP_DIR`. -/
def tempDir : String := "/tmp/notjs"

/-- `NotJSUtils.generateRandomExecutableName(baseName)`:
`baseName + "_" + RandomStringUtils.randomAlphanumeric(8)`, with the random
draw `frag` as explicit input. -/
def generateRandomExecutableName (baseName frag : String) : String :=
  baseName ++ "_" ++ frag

/-- The path chosen by `NotJSUtils.createTempFile(fileName, srcCode)`:
`TEMP_DIR` resolve `randomPrefix + "_" + fileName`, with the 8-character
random draw `frag` as explicit input.  (The write itself is recorded as an
event by the executor models.) -/
def createTempFilePath (frag fileName : String) : String :=
  tempDir ++ "/" ++ frag ++ "_" ++ fileName

/-- Whether a fragment is a possible output of
`RandomStringUtils.randomAlphanumeric(8)`: 8 alphanumeric characters. -/
def validFragment (s : String) : Prop :=
  s.length = 8 ∧ s.data.all (fun c => c.isAlpha || c.isDigit)

instance : DecidablePred validFragment := fun s => by
  unfold validFragment; infer_instance

/-! ### Effect events and process results -/

/-- One observable effect of an executor run. -/
inductive ExecEvent where
  /-- A file named `path` was written with content `content`
  (`Files.writeString` with `CREATE` + `TRUNCATE_EXISTING`). -/
  | writeFile (path content : String)
  /-- A process was started (`ProcessBuilder(cmd).start()`) with
  merged stdout+stderr. -/
  | spawn (cmd : List String)
  /-- A synchronous `waitFor()` on the most recently spawned process. -/
  | await
  deriving DecidableEq, Repr

/-- Whether an event is a program (not compiler) spawn: any `spawn` event
after the first one in an executor trace; we track it per-event. -/
def ExecEvent.isSpawn : ExecEvent → Bool
  | .spawn _ => true
  | _ => false

/-- The process the returned value wraps. -/
inductive ProcResult where
  /-- The already-terminated compiler process, with its exit code
  (`waitFor()` has returned). -/
  | compiler (exitCode : Int)
  /-- The just-started program process, with the command it was
  spawned from. -/
  | program (cmd : List String)
  deriving DecidableEq, Repr

/-! ### The four compiled-language executors

`CExecutor`, `CppExecutor`, `GoExecutor` and `RustExecutor` share one shape
and differ only in compiler command, file extension, version set and
messages; the shape is embedded once, parameterised by a per-language
configuration carrying exactly the per-language constants and command
builders from the source. -/

/-- The per-language constants of one compiled-language executor. -/
structure CompiledLang where
  /-- The language name as spelled in the error message ("C", "C++", ...). -/
  msgName : String
  /-- The base name handed to `generateRandomExecutableName`. -/
  base : String
  /-- The source file extension, dot included. -/
  ext : String
  /-- `DEFAULT_VERSION`. -/
  defaultVersion : String
  /-- `AVAILABLE_VERSIONS`. -/
  availableVersions : List String
  /-- The compile command, from the resolved version, the executable path and
  the source path. -/
  compileCmd : String → String → String → List String
  /-- The run command, from the executable path and the user arguments. -/
  runCmd : String → List String → List String

/-- `CExecutor`: `gcc -std=c<version> -o <exe> <src>`, direct run. -/
def cLang : CompiledLang where
  msgName := "C"
  base := "c"
  ext := ".c"
  defaultVersion := "17"
  availableVersions := ["89", "99", "11", "17", "23"]
  compileCmd := fun v exe src => ["gcc", "-std=c" ++ v, "-o", exe, src]
  runCmd := fun exe args => [exe] ++ args

/-- `CppExecutor`: `g++ -std=c++<version> -o <exe> <src>`, direct run. -/
def cppLang : CompiledLang where
  msgName := "C++"
  base := "cpp"
  ext := ".cpp"
  defaultVersion := "11"
  availableVersions := ["98", "11", "14", "17", "20", "23"]
  compileCmd := fun v exe src => ["g++", "-std=c++" ++ v, "-o", exe, src]
  runCmd := fun exe args => [exe] ++ args

/-- `GoExecutor`: `go build -o <exe> <src>` (the version selects no dialect
flag), run through `stdbuf -o0` for unbuffered output. -/
def goLang : CompiledLang where
  msgName := "Go"
  base := "go"
  ext := ".go"
  defaultVersion := "1.21"
  availableVersions := ["1.19", "1.20", "1.21", "1.22", "1.23"]
  compileCmd := fun _ exe src => ["go", "build", "-o", exe, src]
  runCmd := fun exe args => ["stdbuf", "-o0", exe] ++ args

/-- `RustExecutor`: `rustc -o <exe> <src>` (no version flag), direct run. -/
def rustLang : CompiledLang where
  msgName := "Rust"
  base := "rust"
  ext := ".rs"
  defaultVersion := "1.63.0"
  availableVersions := ["1.63.0"]
  compileCmd := fun _ exe src => ["rustc", "-o", exe, src]
  runCmd := fun exe args => [exe] ++ args

/-- The `IllegalArgumentException` message thrown on an unsupported version. -/
def unsupportedVersionMsg (cfg : CompiledLang) (v : String) : String :=
  "Unsupported " ++ cfg.msgName ++ " version: " ++ v ++
    ". Available versions: " ++ javaListToString cfg.availableVersions

/-- Version resolution shared by every executor: `null` or blank means the
language's default. -/
def resolveVersion (dflt : String) (version : Option String) : String :=
  match version with
  | none => dflt
  | some v => if javaIsBlank v then dflt else v

/-- The shared body of `CExecutor.execute`, `CppExecutor.execute`,
`GoExecutor.execute` and `RustExecutor.execute`:
resolve the version, validate it (throw before any effect), derive the two
artifact names from the random draw, write the source file, run the compiler
synchronously, and either return the terminated compiler process (non-zero
exit) or spawn and return the program.  `frag` is the
`generateRandomExecutableName` draw, `tmpFrag` the extra draw made inside
`NotJSUtils.createTempFile`, and `compileExit` the compiler's exit code as
observed by `waitFor()`. -/
def compiledExecute (cfg : CompiledLang) (srcCode : String)
    (version : Option String) (args : List String)
    (frag tmpFrag : String) (compileExit : Int) :
    List ExecEvent × Except String ProcResult :=
  let v := resolveVersion cfg.defaultVersion version
  if v ∉ cfg.availableVersions then
    ([], .error (unsupportedVersionMsg cfg v))
  else
    let randomPrefix := generateRandomExecutableName cfg.base frag
    let sourceFileName := randomPrefix ++ cfg.ext
    let executableName := randomPrefix ++ ".out"
    let srcPath := createTempFilePath tmpFrag sourceFileName
    let exePath := tempDir ++ "/" ++ executableName
    let compileTrace : List ExecEvent :=
      [.writeFile srcPath srcCode, .spawn (cfg.compileCmd v exePath srcPath),
        .await]
    if compileExit ≠ 0 then
      (compileTrace, .ok (.compiler compileExit))
    else
      (compileTrace ++ [.spawn (cfg.runCmd exePath args)],
        .ok (.program (cfg.runCmd exePath args)))

/-! ### JavaExecutor: class-name extraction
(`JavaExecutor.extractClassName` / `extractClassNameFromIndex`)

The text functions are embedded over `List Char`; `String` wrappers are
provided where the executor model needs them. -/

/-- The characters `extractClassNameFromIndex` stops at: whitespace
(`Character.isWhitespace`), `{`, and `<`. -/
def isStopChar (c : Char) : Bool :=
  javaIsWhitespace c || c = '{' || c = '<'

/-- Model of `java.lang.String.trim`: strip leading and trailing characters
with code point at most `U+0020`. -/
def javaTrim (s : List Char) : List Char :=
  ((s.dropWhile (fun c => c ≤ ' ')).reverse.dropWhile (fun c => c ≤ ' ')).reverse

/-- The suffix of `s` that starts immediately after the first occurrence of
`pat` in `s`; `none` when `pat` does not occur.  This models
`s.indexOf(pat)` followed by reading from index `indexOf + pat.length`. -/
def afterFirst (pat : List Char) : List Char → Option (List Char)
  | [] => if pat.isPrefixOf ([] : List Char) then some [] else none
  | c :: rest =>
    if pat.isPrefixOf (c :: rest) then some ((c :: rest).drop pat.length)
    else afterFirst pat rest

/-- Whether `pat` occurs as a contiguous substring of `s`
(`s.contains(pat)` / `s.indexOf(pat) != -1`). -/
def hasSubstr (s pat : List Char) : Bool :=
  (afterFirst pat s).isSome

/-- `JavaExecutor.extractClassNameFromIndex`, applied to the suffix starting
at the extraction index: collect characters up to the first whitespace, `{`
or `<`, then `trim()`. -/
def extractFrom (suffix : List Char) : List Char :=
  javaTrim (suffix.takeWhile (fun c => !isStopChar c))

/-- `JavaExecutor.extractClassName`: the identifier after the first
`"public class "`, else the identifier after the first `"class "`, else the
fallback `"Main"`. -/
def extractClassName (src : List Char) : List Char :=
  match afterFirst "public class ".data src with
  | some suffix => extractFrom suffix
  | none =>
    match afterFirst "class ".data src with
    | some suffix => extractFrom suffix
    | none => "Main".data

/-! ### JavaExecutor: class-name substitution
(`JavaExecutor.replaceClassName`)

The source calls `String.replaceAll` with the regexes
`\bpublic\s+class\s+OLD\b` and `\bclass\s+OLD\b`.  The regex engine is
embedded for exactly this pattern family: a literal keyword sequence
(`public class` or `class`) with `\s+` between tokens, the literal `OLD`,
and word boundaries at both ends.  `\s+` is matched by maximal munch, which
agrees with the backtracking regex semantics whenever `OLD` does not start
with a `\s` character (true of every output of `extractClassName`, which
never contains whitespace). -/

/-- Java regex `\w`: `[a-zA-Z0-9_]`. -/
def isWordChar (c : Char) : Bool :=
  c.isAlpha || c.isDigit || c = '_'

/-- Java regex `\s`: `[ \t\n\x0B\f\r]`. -/
def isRegexSpace (c : Char) : Bool :=
  c = ' ' || c = '\t' || c = '\n' || c = '\x0B' || c = '\x0C' || c = '\r'

/-- Match a literal at the head of the input, returning the rest. -/
def matchLiteral (lit s : List Char) : Option (List Char) :=
  if lit.isPrefixOf s then some (s.drop lit.length) else none

/-- Match `\s+` (one or more regex-space characters, maximal munch),
returning the last space consumed and the rest. -/
def munchSpaces1 : List Char → Option (Char × List Char)
  | [] => none
  | c :: rest =>
    if isRegexSpace c then
      match munchSpaces1 rest with
      | some (l, r) => some (l, r)
      | none => some (c, rest)
    else none

/-- The leading `\b` of the patterns: the first pattern character (`p` or
`c`) is a word character, so a match position is a boundary exactly when the
preceding input character is absent or not a word character. -/
def boundaryBefore : Option Char → Bool
  | none => true
  | some c => !isWordChar c

/-- The trailing `\b`: `lastc` is the last matched input character; the
position after it is a boundary exactly when the wordness of `lastc` and of
the following character (end of input counting as non-word) differ. -/
def boundaryAfter (lastc : Char) : List Char → Bool
  | [] => isWordChar lastc
  | c :: _ => !(isWordChar lastc == isWordChar c)

/-- The keyword part of the two patterns: `public\s+class` when
`withPublic`, else just `class`.  Returns the input after the keywords. -/
def matchKws (withPublic : Bool) (s : List Char) : Option (List Char) :=
  if withPublic then
    match matchLiteral "public".data s with
    | none => none
    | some s₁ =>
      match munchSpaces1 s₁ with
      | none => none
      | some (_, s₂) => matchLiteral "class".data s₂
  else matchLiteral "class".data s

/-- Attempt to match `\bpublic\s+class\s+OLD\b` (`withPublic = true`) or
`\bclass\s+OLD\b` (`withPublic = false`) at the head of `s`.  `prev` is the
input character immediately preceding `s` (`none` at the start of input).
On success returns the last matched character and the input after the
match. -/
def tryMatchPat (withPublic : Bool) (old : List Char) (prev : Option Char)
    (s : List Char) : Option (Char × List Char) :=
  if !boundaryBefore prev then none
  else
    match matchKws withPublic s with
    | none => none
    | some s₃ =>
      match munchSpaces1 s₃ with
      | none => none
      | some (lastSp, s₄) =>
        match matchLiteral old s₄ with
        | none => none
        | some s₅ =>
          let lastc := if h : old = [] then lastSp else old.getLast h
          if boundaryAfter lastc s₅ then some (lastc, s₅) else none

theorem matchLiteral_length {lit s r : List Char}
    (h : matchLiteral lit s = some r) : r.length ≤ s.length := by
  unfold matchLiteral at h
  split at h
  · cases h; simp
  · cases h

theorem munchSpaces1_length {s : List Char} {l : Char} {r : List Char}
    (h : munchSpaces1 s = some (l, r)) : r.length < s.length := by
  induction s generalizing l r with
  | nil => simp [munchSpaces1] at h
  | cons c rest ih =>
    unfold munchSpaces1 at h
    split at h
    · revert h
      cases hm : munchSpaces1 rest with
      | none => intro h; cases h; simp
      | some p =>
        intro h; cases h
        exact Nat.lt_trans (ih hm) (by simp)
    · cases h

theorem matchKws_length {withPublic : Bool} {s r : List Char}
    (h : matchKws withPublic s = some r) : r.length ≤ s.length := by
  unfold matchKws at h
  split at h
  · cases hp : matchLiteral "public".data s with
    | none => simp [hp] at h
    | some s₁ =>
      simp only [hp] at h
      cases hm : munchSpaces1 s₁ with
      | none => simp only [hp, hm] at h; cases h
      | some q =>
        simp only [hm] at h
        obtain ⟨l₀, s₂⟩ := q
        simp only at h
        have h₁ := matchLiteral_length hp
        have h₂ := munchSpaces1_length hm
        have h₃ := matchLiteral_length h
        omega
  · exact matchLiteral_length h

theorem tryMatchPat_length {withPublic : Bool} {old : List Char}
    {prev : Option Char} {s : List Char} {lastc : Char} {r : List Char}
    (h : tryMatchPat withPublic old prev s = some (lastc, r)) :
    r.length < s.length := by
  unfold tryMatchPat at h
  split at h
  · cases h
  · cases hkws : matchKws withPublic s with
    | none => simp only [hkws] at h; cases h
    | some s₃ =>
      simp only [hkws] at h
      cases hsp : munchSpaces1 s₃ with
      | none => simp only [hkws, hsp] at h; cases h
      | some p =>
        obtain ⟨lsp, s₄⟩ := p
        simp only [hsp] at h
        cases hlit : matchLiteral old s₄ with
        | none => simp only [hkws, hsp, hlit] at h; cases h
        | some s₅ =>
          simp only [hlit] at h
          have h₅ := matchLiteral_length hlit
          have h₄ := munchSpaces1_length hsp
          have h₃ := matchKws_length hkws
          split at h <;> split at h <;> cases h <;> omega

/-- The scanning loop of `Matcher.replaceAll`, fuel-indexed so that it is
structurally recursive (each step consumes at least one input character, so
`input.length` fuel always suffices; see `replaceAllPatAux_congr`). -/
def replaceAllPatAux (withPublic : Bool) (old repl : List Char) :
    Nat → Option Char → List Char → List Char
  | 0, _, s => s
  | _ + 1, _, [] => []
  | fuel + 1, prev, c :: rest =>
    match tryMatchPat withPublic old prev (c :: rest) with
    | some (lastc, rest') =>
      repl ++ replaceAllPatAux withPublic old repl fuel (some lastc) rest'
    | none => c :: replaceAllPatAux withPublic old repl fuel (some c) rest

/-- `java.util.regex.Matcher.replaceAll` specialised to the two patterns:
scan left to right over the input; at each position try the pattern; on a
match append `repl` and resume after the matched region (replacements are
never rescanned); otherwise copy one character.  Word boundaries are judged
on the *input* text, so the scanner carries the previous input character. -/
def replaceAllPat (withPublic : Bool) (old repl : List Char)
    (prev : Option Char) (s : List Char) : List Char :=
  replaceAllPatAux withPublic old repl s.length prev s

theorem replaceAllPatAux_nil {w : Bool} {o r : List Char} (f : Nat)
    (prev : Option Char) : replaceAllPatAux w o r f prev [] = [] := by
  cases f <;> rfl

theorem replaceAllPatAux_congr {w : Bool} {o r : List Char} :
    ∀ {f₁ f₂ : Nat} {prev : Option Char} {s : List Char},
    s.length ≤ f₁ → s.length ≤ f₂ →
    replaceAllPatAux w o r f₁ prev s = replaceAllPatAux w o r f₂ prev s := by
  intro f₁
  induction f₁ with
  | zero =>
    intro f₂ prev s h₁ _
    have : s = [] := List.length_eq_zero.mp (Nat.le_zero.mp h₁)
    subst this
    rw [replaceAllPatAux_nil, replaceAllPatAux_nil]
  | succ f ih =>
    intro f₂ prev s h₁ h₂
    cases s with
    | nil => rw [replaceAllPatAux_nil, replaceAllPatAux_nil]
    | cons c rest =>
      cases f₂ with
      | zero => simp at h₂
      | succ f₂' =>
        simp only [replaceAllPatAux]
        cases hm : tryMatchPat w o prev (c :: rest) with
        | none =>
          have hlen : rest.length ≤ f := by simp at h₁; omega
          have hlen' : rest.length ≤ f₂' := by simp at h₂; omega
          simp only
          rw [ih hlen hlen']
        | some p =>
          obtain ⟨lastc, rest'⟩ := p
          have hr := tryMatchPat_length hm
          have hlen : rest'.length ≤ f := by simp at hr h₁; omega
          have hlen' : rest'.length ≤ f₂' := by simp at hr h₂; omega
          simp only
          rw [ih hlen hlen']

theorem replaceAllPat_nil {w : Bool} {o r : List Char} {prev : Option Char} :
    replaceAllPat w o r prev [] = [] := rfl

/-- One scanning step of `replaceAllPat`. -/
theorem replaceAllPat_cons {w : Bool} {o r : List Char} {prev : Option Char}
    {c : Char} {rest : List Char} :
    replaceAllPat w o r prev (c :: rest) =
      match tryMatchPat w o prev (c :: rest) with
      | some (lastc, rest') => r ++ replaceAllPat w o r (some lastc) rest'
      | none => c :: replaceAllPat w o r (some c) rest := by
  show replaceAllPatAux w o r (rest.length + 1) prev (c :: rest) = _
  simp only [replaceAllPatAux]
  cases hm : tryMatchPat w o prev (c :: rest) with
  | none => rfl
  | some p =>
    obtain ⟨lastc, rest'⟩ := p
    have hr := tryMatchPat_length hm
    simp only
    rw [replaceAllPatAux_congr (by simp at hr ⊢; omega) (le_refl rest'.length)]
    rfl

/-- `JavaExecutor.replaceClassName`: the two sequential `replaceAll` calls,
`\bpublic\s+class\s+OLD\b ↦ "public class " + NEW` first, then
`\bclass\s+OLD\b ↦ "class " + NEW` on its output. -/
def replaceClassName (src old new : List Char) : List Char :=
  let pass1 := replaceAllPat true old ("public class ".data ++ new) none src
  replaceAllPat false old ("class ".data ++ new) none pass1

/-! ### JavaExecutor.execute -/

/-- String-level `extractClassName`. -/
def extractClassNameS (src : String) : String :=
  ⟨extractClassName src.data⟩

/-- String-level `replaceClassName`. -/
def replaceClassNameS (src old new : String) : String :=
  ⟨replaceClassName src.data old.data new.data⟩

/-- `JavaExecutor.DEFAULT_VERSION`. -/
def javaDefaultVersion : String := "25"

/-- `JavaExecutor.AVAILABLE_VERSIONS`. -/
def javaAvailableVersions : List String := ["8", "11", "17", "21", "25"]

/-- `JavaExecutor.VERSION_MAP` (short version to full SDKMAN version). -/
def javaVersionMap (v : String) : String :=
  if v = "8" then "8.0.402-tem"
  else if v = "11" then "11.0.23-tem"
  else if v = "17" then "17.0.11-tem"
  else if v = "21" then "21.0.3-tem"
  else if v = "25" then "25.0.1-tem"
  else ""

/-- `Integer.parseInt` restricted to the decimal version strings that pass
validation (every member of `AVAILABLE_VERSIONS` is an unsigned decimal
numeral). -/
def javaParseInt (s : String) : Nat :=
  s.data.foldl (fun acc c => acc * 10 + (c.toNat - '0'.toNat)) 0

/-- `JavaExecutor.SDKMAN_JAVA_PATH`. -/
def sdkmanJavaPath : String := "/root/.sdkman/candidates/java"

/-- The message of the `IllegalArgumentException` thrown by
`JavaExecutor.execute` on an unsupported version. -/
def javaUnsupportedVersionMsg (v : String) : String :=
  "Unsupported Java version: " ++ v ++ ". Available versions: " ++
    javaListToString javaAvailableVersions

/-- `JavaExecutor.execute`: resolve and validate the version, extract the
declared class name, prefix it with the `generateRandomExecutableName "java"`
draw, rewrite the source, write the rewritten source to
`TEMP_DIR/<newClassName>.java`, and dispatch on the numeric version:
below 11 compile with `javac` first and then run the class (returning the
terminated `javac` process on non-zero exit), 11 and above run the source
file directly with `--source` (adding `--enable-preview` from 21 up). -/
def javaExecute (srcCode : String) (version : Option String)
    (args : List String) (frag : String) (compileExit : Int) :
    List ExecEvent × Except String ProcResult :=
  let v := resolveVersion javaDefaultVersion version
  if v ∉ javaAvailableVersions then
    ([], .error (javaUnsupportedVersionMsg v))
  else
    let fullVersion := javaVersionMap v
    let javaHome := sdkmanJavaPath ++ "/" ++ fullVersion
    let javaExecutable := javaHome ++ "/bin/java"
    let javacExecutable := javaHome ++ "/bin/javac"
    let originalClassName := extractClassNameS srcCode
    let randomPrefix := generateRandomExecutableName "java" frag
    let newClassName := randomPrefix ++ "_" ++ originalClassName
    let fileName := newClassName ++ ".java"
    let modifiedSrcCode := replaceClassNameS srcCode originalClassName newClassName
    let javaFilePath := tempDir ++ "/" ++ fileName
    let writeEvt : ExecEvent := .writeFile javaFilePath modifiedSrcCode
    let versionNumber := javaParseInt v
    if versionNumber < 11 then
      -- executeWithCompilation
      let compileCommand := [javacExecutable, "-d", tempDir, javaFilePath]
      let compileTrace := [writeEvt, .spawn compileCommand, .await]
      if compileExit ≠ 0 then
        (compileTrace, .ok (.compiler compileExit))
      else
        let runCommand :=
          [javaExecutable, "-cp", tempDir, newClassName] ++ args
        (compileTrace ++ [.spawn runCommand], .ok (.program runCommand))
    else
      -- executeWithSourceFlag
      let command :=
        [javaExecutable] ++
          (if versionNumber ≥ 21 then ["--enable-preview"] else []) ++
          ["--source", v, javaFilePath] ++ args
      ([writeEvt, .spawn command], .ok (.program command))

/-! ### TerminalWebSocketHandler (handler/TerminalWebSocketHandler.java)

Per-session view of the three concurrent maps, with the JSON parser and the
I/O layer as an explicit environment. -/

/-- `dto.ExecutionRequest` (record, with null-safe `arguments`). -/
structure ExecutionRequest where
  language : String
  code : String
  version : Option String
  arguments : List String
  deriving DecidableEq, Repr

/-- The per-session entries of `sessionInitializedMap`, `sessionWriterMap`
and `sessionProcessMap` (`none` models an absent key). -/
structure SessionState where
  initialized : Option Bool
  hasWriter : Bool
  hasProcess : Bool
  deriving DecidableEq, Repr

/-- The state of a session right after `afterConnectionEstablished`. -/
def freshSession : SessionState :=
  { initialized := some false, hasWriter := false, hasProcess := false }

/-- An observable effect of handling one inbound text message. -/
inductive WsEffect where
  /-- `jsonMapper.readValue(payload, ExecutionRequest.class)` was invoked. -/
  | parseRequest (payload : String)
  /-- `executor.execute(...)` was invoked for this language. -/
  | execCalled (language : String)
  /-- The output-reader thread was started. -/
  | startOutputReader
  /-- `writer.write(data); writer.flush()` on the process stdin. -/
  | stdinWrite (data : String)
  /-- `session.sendMessage(new TextMessage(text))`. -/
  | sendText (text : String)
  /-- `session.close(CloseStatus.SERVER_ERROR)`. -/
  | closeServerError
  deriving DecidableEq, Repr

/-- The environment's answers for one inbound message: the JSON parse
result, whether `executor.execute` throws an `IOException`, and whether the
stdin write throws, with the respective exception messages. -/
structure WsEnv where
  parsed : Option ExecutionRequest
  parseErrMsg : String
  execIOFails : Bool
  execIOMsg : String
  stdinWriteFails : Bool
  stdinWriteMsg : String
  deriving Repr

/-- The available versions of the registered executor for a (lower-cased)
language key, `none` when no executor is registered — the factory holds
exactly the five executors, keyed by their `getLanguage()`. -/
def executorVersions (language : String) : Option (List String) :=
  if language = "java" then some javaAvailableVersions
  else if language = "c" then some cLang.availableVersions
  else if language = "cpp" then some cppLang.availableVersions
  else if language = "go" then some goLang.availableVersions
  else if language = "rust" then some rustLang.availableVersions
  else none

/-- `ExecutorFactory.isSupported`: key lookup on the lower-cased name. -/
def isSupported (language : String) : Bool :=
  (executorVersions language.toLower).isSome

/-- `TerminalWebSocketHandler.handleExecutionRequest`: parse the payload as
an `ExecutionRequest`, validate language and (non-blank) version, invoke the
executor, store process and writer, start the output reader and mark the
session initialized; any exception is caught, reported as
`"Error: <message>\r\n"` and followed by a server-error close, leaving the
session state unchanged. -/
def handleExecutionRequest (st : SessionState) (payload : String)
    (env : WsEnv) : SessionState × List WsEffect :=
  let fail := fun (msg : String) =>
    (st, [WsEffect.parseRequest payload,
      WsEffect.sendText ("Error: " ++ msg ++ "\r\n"),
      WsEffect.closeServerError])
  match env.parsed with
  | none => fail env.parseErrMsg
  | some req =>
    if !isSupported req.language then
      fail ("Language '" ++ req.language ++ "' is not supported." ++
        " Supported languages: java, c, cpp, go, rust")
    else
      let avail := (executorVersions req.language.toLower).getD []
      let versionInvalid :=
        match req.version with
        | none => false
        | some v => !javaIsBlank v && !avail.contains v
      if versionInvalid then
        fail ("Unsupported version '" ++
          (req.version.getD "") ++ "' for language '" ++ req.language ++
          "'. Available versions: " ++ javaListToString avail)
      else if env.execIOFails then
        fail env.execIOMsg
      else
        ({ initialized := some true, hasWriter := true, hasProcess := true },
          [WsEffect.parseRequest payload, WsEffect.execCalled req.language,
            WsEffect.startOutputReader])

/-- `TerminalWebSocketHandler.handleTextMessage`: the first message of an
uninitialized session (absent or `false` entry) is handled as the execution
request; for an initialized session the payload is written to the process
stdin writer exactly as received and flushed (an `IOException` there is
reported to the channel and the session continues). -/
def handleTextMessage (st : SessionState) (payload : String) (env : WsEnv) :
    SessionState × List WsEffect :=
  if st.initialized = none ∨ st.initialized = some false then
    handleExecutionRequest st payload env
  else
    if st.hasWriter then
      if env.stdinWriteFails then
        (st, [WsEffect.stdinWrite payload,
          WsEffect.sendText
            ("Error writing to process: " ++ env.stdinWriteMsg ++ "\r\n")])
      else (st, [WsEffect.stdinWrite payload])
    else (st, [])

/-- The data written to the process stdin by a list of effects, in order. -/
def writtenStdin (effects : List WsEffect) : List String :=
  effects.filterMap fun e =>
    match e with
    | .stdinWrite data => some data
    | _ => none

/-! ### ExecutionHandle.forceCleanup (service/ExecutionHandle.java)

The body of the `synchronized` block is embedded as a pure event trace
(`cleanupWork`); the double-checked locking around it is embedded as a
small-step interleaving machine further below. -/

/-- One observable effect of `forceCleanup`. -/
inductive CleanupEvent where
  /-- `process.destroyForcibly()`: the unconditional kill. -/
  | destroyForcibly
  /-- `process.waitFor(5, TimeUnit.SECONDS)`: the bounded await. -/
  | awaitTermination (seconds : Nat)
  /-- One iteration of `cleanupTempFiles` for `path`: the existence check
  plus `Files.deleteIfExists` inside a per-file `try/catch`, so a failed
  deletion (`ok = false`) is logged and the loop continues. -/
  | deleteAttempt (path : String) (ok : Bool)
  deriving DecidableEq, Repr

/-- The work performed by the winning `forceCleanup` caller, in source
order: if the process is alive, `destroyForcibly()` then a bounded
`waitFor(5, SECONDS)`; then `cleanupTempFiles()` over every registered
file, each deletion attempt independent of the previous ones' outcomes
(`delOk` is the environment's per-file answer). -/
def cleanupWork (alive : Bool) (tempFiles : List String)
    (delOk : String → Bool) : List CleanupEvent :=
  (if alive then
    [CleanupEvent.destroyForcibly, CleanupEvent.awaitTermination 5]
  else []) ++
    tempFiles.map (fun f => CleanupEvent.deleteAttempt f (delOk f))

/-- The fields of an `ExecutionHandle` relevant to `forceCleanup`:
`process.isAlive()` at entry, the registered temp files, and the volatile
`cleanedUp` flag. -/
structure Handle where
  alive : Bool
  tempFiles : List String
  cleanedUp : Bool
  deriving DecidableEq, Repr

/-- `ExecutionHandle.forceCleanup` in isolation (single caller): a no-op
when `cleanedUp` is already set; otherwise set the flag, kill-and-await if
alive, delete every registered file, and clear the file set. -/
def forceCleanup (h : Handle) (delOk : String → Bool) :
    Handle × List CleanupEvent :=
  if h.cleanedUp then (h, [])
  else
    ({ h with cleanedUp := true, tempFiles := [] },
      cleanupWork h.alive h.tempFiles delOk)

/-! ### Concurrent calls to forceCleanup

`forceCleanup` is two atomic steps per caller: the unsynchronized read of
the `volatile cleanedUp` flag (the fast path), and the `synchronized` block
(whose body — recheck flag, set flag, kill, delete — executes under the
monitor, hence atomically with respect to every other block execution).
Any interleaving of `n` concurrent callers is therefore a sequence of these
per-caller steps in an arbitrary order, which the machine below makes
explicit. -/

/-- The program counter of one `forceCleanup` caller. -/
inductive CallerPc where
  /-- About to perform the unsynchronized `if (cleanedUp) return`. -/
  | start
  /-- Passed the outer check; waiting to enter the `synchronized` block. -/
  | ready
  /-- Returned; `didWork` records whether this caller executed the
  kill-and-delete body. -/
  | done (didWork : Bool)
  deriving DecidableEq, Repr

/-- Whether a caller has returned. -/
def CallerPc.isDone : CallerPc → Bool
  | .done _ => true
  | _ => false

/-- The two atomic steps of one caller. -/
inductive Phase where
  /-- The unsynchronized flag read. -/
  | outer
  /-- The `synchronized` block (recheck, set flag, do the work). -/
  | lockBody
  deriving DecidableEq, Repr

/-- The shared state of `n` concurrent `forceCleanup` callers on one handle:
the `volatile cleanedUp` flag, the global trace of kill/delete events
performed so far, and each caller's program counter.  `alive`, `tempFiles`
and the deletion outcomes are fixed parameters of the run. -/
structure ConcState (n : Nat) where
  cleanedUp : Bool
  trace : List CleanupEvent
  pcs : Fin n → CallerPc

/-- The initial state: flag unset, nothing performed, all callers at the
outer check. -/
def concInit (n : Nat) : ConcState n :=
  { cleanedUp := false, trace := [], pcs := fun _ => .start }

/-- One atomic step of caller `i`: a no-op unless `i` is at the matching
program point.  The `lockBody` step from `ready` rechecks the flag under
the monitor; if it is still unset, the caller sets it and performs the
kill-and-delete work. -/
def stepCaller {n : Nat} (alive : Bool) (tempFiles : List String)
    (delOk : String → Bool) (st : ConcState n) (i : Fin n) (ph : Phase) :
    ConcState n :=
  match ph with
  | .outer =>
    match st.pcs i with
    | .start =>
      if st.cleanedUp then
        { st with pcs := Function.update st.pcs i (.done false) }
      else { st with pcs := Function.update st.pcs i .ready }
    | _ => st
  | .lockBody =>
    match st.pcs i with
    | .ready =>
      if st.cleanedUp then
        { st with pcs := Function.update st.pcs i (.done false) }
      else
        { cleanedUp := true,
          trace := st.trace ++ cleanupWork alive tempFiles delOk,
          pcs := Function.update st.pcs i (.done true) }
    | _ => st

/-- Run a schedule: an arbitrary interleaving of the callers' steps. -/
def runSched {n : Nat} (alive : Bool) (tempFiles : List String)
    (delOk : String → Bool) (sched : List (Fin n × Phase))
    (st : ConcState n) : ConcState n :=
  match sched with
  | [] => st
  | (i, ph) :: rest =>
    runSched alive tempFiles delOk rest (stepCaller alive tempFiles delOk st i ph)

/-- The inductive invariant of the interleaving machine, for the work list
`work`: the global trace holds exactly one copy of the work as soon as the
flag is set and is empty before; a finished caller implies the flag is set;
no caller has done the work while the flag is unset; and once the flag is
set exactly one caller (ever) does the work. -/
def ConcInv {n : Nat} (work : List CleanupEvent) (st : ConcState n) : Prop :=
  (st.trace = if st.cleanedUp then work else []) ∧
  (∀ i, (st.pcs i).isDone = true → st.cleanedUp = true) ∧
  (st.cleanedUp = false → ∀ i, st.pcs i ≠ .done true) ∧
  (st.cleanedUp = true →
    ∃ w, st.pcs w = .done true ∧ ∀ j, j ≠ w → st.pcs j ≠ .done true)

theorem concInv_init {n : Nat} (work : List CleanupEvent) :
    ConcInv work (concInit n) := by
  refine ⟨by simp [concInit], ?_, ?_, ?_⟩
  · intro i h; simp [concInit, CallerPc.isDone] at h
  · intro _ i; simp [concInit]
  · intro h; simp [concInit] at h

theorem concInv_step {n : Nat} {alive : Bool} {tempFiles : List String}
    {delOk : String → Bool} {st : ConcState n} (i : Fin n) (ph : Phase)
    (hinv : ConcInv (cleanupWork alive tempFiles delOk) st) :
    ConcInv (cleanupWork alive tempFiles delOk)
      (stepCaller alive tempFiles delOk st i ph) := by
  obtain ⟨h1, h2, h3, h4⟩ := hinv
  cases ph with
  | outer =>
    rcases hpc : st.pcs i with _ | _ | b <;>
      simp only [stepCaller, hpc]
    case start =>
      split
      case isTrue hcl =>
        refine ⟨by simpa [hcl] using h1, fun _ _ => hcl,
          fun hf => absurd (show st.cleanedUp = false from hf) (by simp [hcl]),
          fun _ => ?_⟩
        obtain ⟨w, hw, hothers⟩ := h4 hcl
        have hwne : i ≠ w := fun hEq => by
          rw [hEq] at hpc; rw [hpc] at hw; cases hw
        refine ⟨w, by simpa [Function.update_noteq (Ne.symm hwne)] using hw, ?_⟩
        intro j hj
        rcases eq_or_ne j i with rfl | hne
        · simp [Function.update_same]
        · simpa [Function.update_noteq hne] using hothers j hj
      case isFalse hcl' =>
        have hcl : st.cleanedUp = false := by simpa using hcl'
        refine ⟨by simpa [hcl] using h1, ?_, ?_,
          fun hf => absurd hf (by simp [hcl])⟩
        · intro j hj
          rcases eq_or_ne j i with rfl | hne
          · simp [Function.update_same, CallerPc.isDone] at hj
          · exact h2 j (by simpa [Function.update_noteq hne] using hj)
        · intro hf j
          rcases eq_or_ne j i with rfl | hne
          · simp [Function.update_same]
          · simpa [Function.update_noteq hne] using h3 hf j
    case done => exact ⟨h1, h2, h3, h4⟩
    case ready => exact ⟨h1, h2, h3, h4⟩
  | lockBody =>
    rcases hpc : st.pcs i with _ | _ | b <;>
      simp only [stepCaller, hpc]
    case start => exact ⟨h1, h2, h3, h4⟩
    case done => exact ⟨h1, h2, h3, h4⟩
    case ready =>
      split
      case isTrue hcl =>
        refine ⟨by simpa [hcl] using h1, fun _ _ => hcl,
          fun hf => absurd (show st.cleanedUp = false from hf) (by simp [hcl]),
          fun _ => ?_⟩
        obtain ⟨w, hw, hothers⟩ := h4 hcl
        have hwne : i ≠ w := fun hEq => by
          rw [hEq] at hpc; rw [hpc] at hw; cases hw
        refine ⟨w, by simpa [Function.update_noteq (Ne.symm hwne)] using hw, ?_⟩
        intro j hj
        rcases eq_or_ne j i with rfl | hne
        · simp [Function.update_same]
        · simpa [Function.update_noteq hne] using hothers j hj
      case isFalse hcl' =>
        have hcl : st.cleanedUp = false := by simpa using hcl'
        refine ⟨by simpa [hcl] using h1, fun _ _ => rfl,
          fun hf => absurd (show true = false from hf) (by simp),
          fun _ => ?_⟩
        refine ⟨i, by simp [Function.update_same], ?_⟩
        intro j hj
        simpa [Function.update_noteq hj] using h3 hcl j

theorem concInv_run {n : Nat} {alive : Bool} {tempFiles : List String}
    {delOk : String → Bool} (sched : List (Fin n × Phase)) {st : ConcState n}
    (hinv : ConcInv (cleanupWork alive tempFiles delOk) st) :
    ConcInv (cleanupWork alive tempFiles delOk)
      (runSched alive tempFiles delOk sched st) := by
  induction sched generalizing st with
  | nil => exact hinv
  | cons step rest ih =>
    exact ih (concInv_step step.1 step.2 hinv)

/-! ### Derived observations used by the theorems -/

instance {e a : Type} [DecidableEq e] [DecidableEq a] :
    DecidableEq (Except e a) := fun x y =>
  match x, y with
  | .ok u, .ok v => decidable_of_iff (u = v) (by simp)
  | .error u, .error v => decidable_of_iff (u = v) (by simp)
  | .ok _, .error _ => isFalse (by simp)
  | .error _, .ok _ => isFalse (by simp)

/-- The command of the program process an executor run returned, when it
returned one (and not a wrapped compiler process or an error). -/
def programCmd (r : List ExecEvent × Except String ProcResult) :
    Option (List String) :=
  match r.2 with
  | .ok (.program cmd) => some cmd
  | _ => none

/-- The paths written by the file-write events of a trace, in order. -/
def writtenPaths (t : List ExecEvent) : List String :=
  t.filterMap fun e =>
    match e with
    | .writeFile p _ => some p
    | _ => none

/-- Replay the file-write events of a trace onto a model filesystem
(`Files.writeString` with `CREATE` + `TRUNCATE_EXISTING`: each write
creates or fully replaces the file). -/
def applyWrites (fs : String → Option String) : List ExecEvent → (String → Option String)
  | [] => fs
  | .writeFile p c :: rest => applyWrites (Function.update fs p (some c)) rest
  | _ :: rest => applyWrites fs rest

/-! ## The claims -/

/-- Claim C5: for every compiled-language execution (C, C++, Go, Rust) whose
compiler exits non-zero, `execute` raises no error and spawns no program:
it returns the already-terminated compiler process as the result, and the
trace holds exactly one spawn — the compiler invocation — so the compiler's
merged stdout+stderr diagnostic flows through the normal output path. -/
theorem compileFailureWrapsCompilerProcess :
    ∀ cfg ∈ ([cLang, cppLang, goLang, rustLang] : List CompiledLang),
    ∀ (src : String) (version : Option String) (args : List String)
      (frag tmpFrag : String) (e : Int), e ≠ 0 →
    resolveVersion cfg.defaultVersion version ∈ cfg.availableVersions →
    compiledExecute cfg src version args frag tmpFrag e =
      ([.writeFile
          (createTempFilePath tmpFrag
            (generateRandomExecutableName cfg.base frag ++ cfg.ext)) src,
        .spawn
          (cfg.compileCmd (resolveVersion cfg.defaultVersion version)
            (tempDir ++ "/" ++ (generateRandomExecutableName cfg.base frag ++ ".out"))
            (createTempFilePath tmpFrag
              (generateRandomExecutableName cfg.base frag ++ cfg.ext))),
        .await],
       .ok (.compiler e)) := by
  intro cfg _ src version args frag tmpFrag e he hv
  simp [compiledExecute, hv, he]

/-- Witness for C5: a concrete failed C compilation (exit code 1) returning
the terminated compiler process with a single (compiler) spawn. -/
theorem compileFailureWrapsCompilerProcessWitness :
    compiledExecute cLang "bad" (some "17") [] "Aa0Bb1Cc" "Dd2Ee3Ff" 1 =
      ([.writeFile "/tmp/notjs/Dd2Ee3Ff_c_Aa0Bb1Cc.c" "bad",
        .spawn ["gcc", "-std=c17", "-o", "/tmp/notjs/c_Aa0Bb1Cc.out",
          "/tmp/notjs/Dd2Ee3Ff_c_Aa0Bb1Cc.c"],
        .await],
       .ok (.compiler 1)) := by
  have h := compileFailureWrapsCompilerProcess cLang (List.Mem.head _)
    "bad" (some "17") [] "Aa0Bb1Cc" "Dd2Ee3Ff" 1 (by decide) (by decide)
  simpa [cLang, createTempFilePath, generateRandomExecutableName, tempDir,
    resolveVersion, javaIsBlank] using h

/-- Claim C6, counterexample: the claim quantifies over every *non-empty*
version string not in `availableVersions`, but the source tests
`version.isBlank()`, so the non-empty all-whitespace string `" "` — which is
not in any version list — resolves to the default version instead of
failing: `CExecutor.execute` returns a started program and spawns
processes rather than failing with the enumerating message. -/
theorem versionValidationBlankCounterexample :
    (" " : String) ≠ "" ∧
    (" " : String) ∉ cLang.availableVersions ∧
    (compiledExecute cLang "int main(){return 0;}" (some " ") []
        "Aa0Bb1Cc" "Dd2Ee3Ff" 0).2 ≠
      .error (unsupportedVersionMsg cLang " ") ∧
    (compiledExecute cLang "int main(){return 0;}" (some " ") []
        "Aa0Bb1Cc" "Dd2Ee3Ff" 0).2 =
      .ok (.program ["/tmp/notjs/c_Aa0Bb1Cc.out"]) ∧
    (compiledExecute cLang "int main(){return 0;}" (some " ") []
        "Aa0Bb1Cc" "Dd2Ee3Ff" 0).1.any ExecEvent.isSpawn = true := by
  refine ⟨by decide, by decide, ?_, by decide, by decide⟩
  decide

/-- Claim C6 as amended: for every language executor and every *non-blank*
version string `v` (some character is not whitespace) outside that
language's `availableVersions`, `execute` fails with the
`IllegalArgumentException` message enumerating the valid versions, and its
trace is empty — no process spawned, no file written. -/
theorem invalidVersionFailsBeforeAnyEffect :
    ∀ v : String, javaIsBlank v = false →
    (∀ cfg ∈ ([cLang, cppLang, goLang, rustLang] : List CompiledLang),
      v ∉ cfg.availableVersions →
      ∀ (src : String) (args : List String) (frag tmpFrag : String) (e : Int),
        compiledExecute cfg src (some v) args frag tmpFrag e =
          ([], .error (unsupportedVersionMsg cfg v))) ∧
    (v ∉ javaAvailableVersions →
      ∀ (src : String) (args : List String) (frag : String) (e : Int),
        javaExecute src (some v) args frag e =
          ([], .error (javaUnsupportedVersionMsg v))) := by
  intro v hblank
  constructor
  · intro cfg _ hv src args frag tmpFrag e
    simp [compiledExecute, resolveVersion, hblank, hv]
  · intro hv src args frag e
    simp [javaExecute, resolveVersion, hblank, hv]

/-- Witness for the amended C6: the unsupported C version `"42"` fails with
the enumerating message and an empty trace, and an unsupported Java version
likewise. -/
theorem invalidVersionFailsBeforeAnyEffectWitness :
    compiledExecute cLang "x" (some "42") [] "Aa0Bb1Cc" "Dd2Ee3Ff" 0 =
      ([], .error
        "Unsupported C version: 42. Available versions: [89, 99, 11, 17, 23]") ∧
    javaExecute "x" (some "42") [] "Aa0Bb1Cc" 0 =
      ([], .error
        "Unsupported Java version: 42. Available versions: [8, 11, 17, 21, 25]") := by
  have h := invalidVersionFailsBeforeAnyEffect "42" (by decide)
  exact ⟨by simpa using h.1 cLang (List.Mem.head _) (by decide) "x" [] "Aa0Bb1Cc" "Dd2Ee3Ff" 0,
    by simpa using h.2 (by decide) "x" [] "Aa0Bb1Cc" 0⟩

theorem javaParseInt_eight : javaParseInt "8" = 8 := by decide

theorem javaParseInt_eleven : javaParseInt "11" = 11 := by decide

theorem javaParseInt_seventeen : javaParseInt "17" = 17 := by decide

theorem javaParseInt_twentyone : javaParseInt "21" = 21 := by decide

theorem javaParseInt_twentyfive : javaParseInt "25" = 25 := by decide

/-- Evaluation of a compiled-language execution with a valid resolved
version and a successful compile: source write, compiler spawn, await,
program spawn. -/
theorem compiledExecute_ok {cfg : CompiledLang} (src : String)
    (version : Option String) (args : List String) (frag tmpFrag : String)
    (hv : resolveVersion cfg.defaultVersion version ∈ cfg.availableVersions) :
    compiledExecute cfg src version args frag tmpFrag 0 =
      ([.writeFile
          (createTempFilePath tmpFrag
            (generateRandomExecutableName cfg.base frag ++ cfg.ext)) src,
        .spawn
          (cfg.compileCmd (resolveVersion cfg.defaultVersion version)
            (tempDir ++ "/" ++ (generateRandomExecutableName cfg.base frag ++ ".out"))
            (createTempFilePath tmpFrag
              (generateRandomExecutableName cfg.base frag ++ cfg.ext))),
        .await,
        .spawn (cfg.runCmd
          (tempDir ++ "/" ++ (generateRandomExecutableName cfg.base frag ++ ".out")) args)],
       .ok (.program (cfg.runCmd
          (tempDir ++ "/" ++ (generateRandomExecutableName cfg.base frag ++ ".out")) args))) := by
  simp [compiledExecute, hv]

/-- Claim C10: for every successful Go compilation the produced executable
is run as `stdbuf -o0 <executable> <arguments>`, while C, C++ and Rust run
the produced binary directly and Java invokes the Java runtime binary
directly — no other language's run command is wrapped. -/
theorem goRunsThroughStdbuf :
    ∀ (src : String) (args : List String) (frag tmpFrag : String)
      (vgo vc vcpp vrust vj : Option String),
    resolveVersion goLang.defaultVersion vgo ∈ goLang.availableVersions →
    resolveVersion cLang.defaultVersion vc ∈ cLang.availableVersions →
    resolveVersion cppLang.defaultVersion vcpp ∈ cppLang.availableVersions →
    resolveVersion rustLang.defaultVersion vrust ∈ rustLang.availableVersions →
    resolveVersion javaDefaultVersion vj ∈ javaAvailableVersions →
    programCmd (compiledExecute goLang src vgo args frag tmpFrag 0) =
      some (["stdbuf", "-o0",
        tempDir ++ "/" ++ (generateRandomExecutableName "go" frag ++ ".out")] ++ args) ∧
    programCmd (compiledExecute cLang src vc args frag tmpFrag 0) =
      some ([tempDir ++ "/" ++ (generateRandomExecutableName "c" frag ++ ".out")] ++ args) ∧
    programCmd (compiledExecute cppLang src vcpp args frag tmpFrag 0) =
      some ([tempDir ++ "/" ++ (generateRandomExecutableName "cpp" frag ++ ".out")] ++ args) ∧
    programCmd (compiledExecute rustLang src vrust args frag tmpFrag 0) =
      some ([tempDir ++ "/" ++ (generateRandomExecutableName "rust" frag ++ ".out")] ++ args) ∧
    (programCmd (javaExecute src vj args frag 0)).bind List.head? =
      some (sdkmanJavaPath ++ "/" ++
        javaVersionMap (resolveVersion javaDefaultVersion vj) ++ "/bin/java") := by
  intro src args frag tmpFrag vgo vc vcpp vrust vj hgo hc hcpp hrust hj
  refine ⟨?_, ?_, ?_, ?_, ?_⟩
  · rw [compiledExecute_ok src vgo args frag tmpFrag hgo]; simp [programCmd, goLang]
  · rw [compiledExecute_ok src vc args frag tmpFrag hc]; simp [programCmd, cLang]
  · rw [compiledExecute_ok src vcpp args frag tmpFrag hcpp]; simp [programCmd, cppLang]
  · rw [compiledExecute_ok src vrust args frag tmpFrag hrust]; simp [programCmd, rustLang]
  · rcases hrv : resolveVersion javaDefaultVersion vj with v
    rw [hrv] at hj
    simp only [javaAvailableVersions, List.mem_cons, List.mem_singleton,
      List.not_mem_nil, or_false] at hj
    rcases hj with rfl | rfl | rfl | rfl | rfl <;>
      simp [javaExecute, programCmd, hrv, javaParseInt_eight,
        javaParseInt_eleven, javaParseInt_seventeen, javaParseInt_twentyone,
        javaParseInt_twentyfive, javaVersionMap, sdkmanJavaPath,
        generateRandomExecutableName, javaAvailableVersions]

/-- Witness for C10 at concrete inputs: default versions everywhere, one
user argument. -/
theorem goRunsThroughStdbufWitness :
    programCmd (compiledExecute goLang "x" none ["a"] "Aa0Bb1Cc" "Dd2Ee3Ff" 0) =
      some (["stdbuf", "-o0",
        tempDir ++ "/" ++ (generateRandomExecutableName "go" "Aa0Bb1Cc" ++ ".out")] ++ ["a"]) ∧
    programCmd (compiledExecute cLang "x" none ["a"] "Aa0Bb1Cc" "Dd2Ee3Ff" 0) =
      some ([tempDir ++ "/" ++ (generateRandomExecutableName "c" "Aa0Bb1Cc" ++ ".out")] ++ ["a"]) ∧
    (programCmd (javaExecute "x" none ["a"] "Aa0Bb1Cc" 0)).bind List.head? =
      some (sdkmanJavaPath ++ "/" ++
        javaVersionMap (resolveVersion javaDefaultVersion none) ++ "/bin/java") := by
  have h := goRunsThroughStdbuf "x" ["a"] "Aa0Bb1Cc" "Dd2Ee3Ff"
    none none none none none (by decide) (by decide) (by decide) (by decide)
    (by decide)
  exact ⟨h.1, h.2.1, h.2.2.2.2⟩

/-- Claim C8: for every Java execution with resolved version `v`: below
major 11 the source is first compiled with `javac` into a class file and the
class is then run (on compile failure the terminated compiler process is
returned instead); from 11 on the runtime is invoked directly on the source
file in single-file mode with `--source`; and from 21 on `--enable-preview`
is additionally passed. -/
theorem javaVersionDispatch :
    ∀ (src : String) (args : List String) (frag : String) (e : Int)
      (v : String), v ∈ javaAvailableVersions →
    (javaParseInt v < 11 →
      (javaExecute src (some v) args frag e).1.take 3 =
        [ExecEvent.writeFile
            (tempDir ++ "/" ++
              ((generateRandomExecutableName "java" frag ++ "_" ++
                extractClassNameS src) ++ ".java"))
            (replaceClassNameS src (extractClassNameS src)
              (generateRandomExecutableName "java" frag ++ "_" ++
                extractClassNameS src)),
          ExecEvent.spawn
            [sdkmanJavaPath ++ "/" ++ javaVersionMap v ++ "/bin/javac", "-d",
              tempDir,
              tempDir ++ "/" ++
                ((generateRandomExecutableName "java" frag ++ "_" ++
                  extractClassNameS src) ++ ".java")],
          ExecEvent.await] ∧
      (e = 0 →
        (javaExecute src (some v) args frag e).2 =
          .ok (.program
            ([sdkmanJavaPath ++ "/" ++ javaVersionMap v ++ "/bin/java", "-cp",
              tempDir,
              generateRandomExecutableName "java" frag ++ "_" ++
                extractClassNameS src] ++ args))) ∧
      (e ≠ 0 →
        (javaExecute src (some v) args frag e).2 = .ok (.compiler e))) ∧
    (11 ≤ javaParseInt v →
      javaExecute src (some v) args frag e =
        ([ExecEvent.writeFile
            (tempDir ++ "/" ++
              ((generateRandomExecutableName "java" frag ++ "_" ++
                extractClassNameS src) ++ ".java"))
            (replaceClassNameS src (extractClassNameS src)
              (generateRandomExecutableName "java" frag ++ "_" ++
                extractClassNameS src)),
          ExecEvent.spawn
            ([sdkmanJavaPath ++ "/" ++ javaVersionMap v ++ "/bin/java"] ++
              (if 21 ≤ javaParseInt v then ["--enable-preview"] else []) ++
              ["--source", v,
                tempDir ++ "/" ++
                  ((generateRandomExecutableName "java" frag ++ "_" ++
                    extractClassNameS src) ++ ".java")] ++ args)],
         .ok (.program
            ([sdkmanJavaPath ++ "/" ++ javaVersionMap v ++ "/bin/java"] ++
              (if 21 ≤ javaParseInt v then ["--enable-preview"] else []) ++
              ["--source", v,
                tempDir ++ "/" ++
                  ((generateRandomExecutableName "java" frag ++ "_" ++
                    extractClassNameS src) ++ ".java")] ++ args)))) ∧
    (21 ≤ javaParseInt v →
      "--enable-preview" ∈
        (programCmd (javaExecute src (some v) args frag e)).getD []) := by
  intro src args frag e v hv
  simp only [javaAvailableVersions, List.mem_cons, List.mem_singleton,
    List.not_mem_nil, or_false] at hv
  rcases hv with rfl | rfl | rfl | rfl | rfl
  · have hrv : resolveVersion javaDefaultVersion (some "8") = "8" := by decide
    refine ⟨fun _ => ⟨?_, fun he => ?_, fun he => ?_⟩,
      fun hge => absurd hge (by simp [javaParseInt_eight]),
      fun hge => absurd hge (by simp [javaParseInt_eight])⟩
    · rcases eq_or_ne e 0 with rfl | he
      · simp [javaExecute, javaVersionMap, sdkmanJavaPath, hrv,
          javaAvailableVersions, generateRandomExecutableName,
          javaParseInt_eight]
      · simp [javaExecute, javaVersionMap, sdkmanJavaPath, hrv,
          javaAvailableVersions, generateRandomExecutableName,
          javaParseInt_eight, he]
    · simp [javaExecute, javaVersionMap, sdkmanJavaPath, hrv,
        javaAvailableVersions, generateRandomExecutableName,
        javaParseInt_eight, he]
    · simp [javaExecute, javaVersionMap, sdkmanJavaPath, hrv,
        javaAvailableVersions, generateRandomExecutableName,
        javaParseInt_eight, he]
  · have hrv : resolveVersion javaDefaultVersion (some "11") = "11" := by decide
    exact ⟨fun hlt => absurd hlt (by simp [javaParseInt_eleven]),
      fun _ => by
        simp [javaExecute, javaVersionMap, sdkmanJavaPath, hrv,
          javaAvailableVersions, generateRandomExecutableName,
          javaParseInt_eleven],
      fun hge21 => absurd hge21 (by simp [javaParseInt_eleven])⟩
  · have hrv : resolveVersion javaDefaultVersion (some "17") = "17" := by decide
    exact ⟨fun hlt => absurd hlt (by simp [javaParseInt_seventeen]),
      fun _ => by
        simp [javaExecute, javaVersionMap, sdkmanJavaPath, hrv,
          javaAvailableVersions, generateRandomExecutableName,
          javaParseInt_seventeen],
      fun hge21 => absurd hge21 (by simp [javaParseInt_seventeen])⟩
  · have hrv : resolveVersion javaDefaultVersion (some "21") = "21" := by decide
    exact ⟨fun hlt => absurd hlt (by simp [javaParseInt_twentyone]),
      fun _ => by
        simp [javaExecute, javaVersionMap, sdkmanJavaPath, hrv,
          javaAvailableVersions, generateRandomExecutableName,
          javaParseInt_twentyone],
      fun _ => by
        simp [javaExecute, programCmd, javaVersionMap, sdkmanJavaPath, hrv,
          javaAvailableVersions, generateRandomExecutableName,
          javaParseInt_twentyone]⟩
  · have hrv : resolveVersion javaDefaultVersion (some "25") = "25" := by decide
    exact ⟨fun hlt => absurd hlt (by simp [javaParseInt_twentyfive]),
      fun _ => by
        simp [javaExecute, javaVersionMap, sdkmanJavaPath, hrv,
          javaAvailableVersions, generateRandomExecutableName,
          javaParseInt_twentyfive],
      fun _ => by
        simp [javaExecute, programCmd, javaVersionMap, sdkmanJavaPath, hrv,
          javaAvailableVersions, generateRandomExecutableName,
          javaParseInt_twentyfive]⟩

/-- Witness for C8: version 8 with a failed compile returns the terminated
compiler process; version 25 passes `--enable-preview`. -/
theorem javaVersionDispatchWitness :
    ((javaExecute "public class Main {}" (some "8") ["z"] "Aa0Bb1Cc" 1).2 =
      .ok (.compiler 1)) ∧
    ("--enable-preview" ∈
      (programCmd
        (javaExecute "public class Main {}" (some "25") ["z"] "Aa0Bb1Cc" 0)).getD []) := by
  have h8 := javaVersionDispatch "public class Main {}" ["z"] "Aa0Bb1Cc" 1 "8"
    (by decide)
  have h25 := javaVersionDispatch "public class Main {}" ["z"] "Aa0Bb1Cc" 0 "25"
    (by decide)
  exact ⟨(h8.1 (by decide)).2.2 (by decide), h25.2.2 (by decide)⟩

theorem sappend_cancel_right {a b c : String} (h : a ++ c = b ++ c) :
    a = b := by
  refine String.ext (@List.append_cancel_right _ a.data c.data b.data ?_)
  have := congrArg String.data h
  simpa [String.data_append] using this

theorem sappend_cancel_left {a b c : String} (h : a ++ b = a ++ c) :
    b = c := by
  refine String.ext (@List.append_cancel_left _ a.data b.data c.data ?_)
  have := congrArg String.data h
  simpa [String.data_append] using this

/-- The runnable identifier (`newClassName`) of a Java invocation: the
`generateRandomExecutableName "java"` prefix, an underscore, and the
extracted class name. -/
def javaRunnableId (frag src : String) : String :=
  generateRandomExecutableName "java" frag ++ "_" ++ extractClassNameS src

/-- The artifact path (`javaFilePath`) of a Java invocation. -/
def javaArtifactPath (frag src : String) : String :=
  tempDir ++ "/" ++ (javaRunnableId frag src ++ ".java")

/-- The file-system effect of a default-version Java execution: exactly one
write, of the rewritten source, at the invocation's artifact path. -/
theorem javaExecute_writes (src : String) (args : List String) (frag : String)
    (e : Int) (fs : String → Option String) :
    applyWrites fs (javaExecute src none args frag e).1 =
      Function.update fs (javaArtifactPath frag src)
        (some (replaceClassNameS src (extractClassNameS src)
          (javaRunnableId frag src))) := by
  have hrv : resolveVersion javaDefaultVersion none = "25" := by decide
  simp [javaExecute, hrv, javaVersionMap, sdkmanJavaPath,
    javaAvailableVersions, javaParseInt_twentyfive,
    generateRandomExecutableName, applyWrites, javaArtifactPath, javaRunnableId]

theorem javaRunnableId_inj {frag1 frag2 src1 src2 : String}
    (h1 : extractClassNameS src1 = "Main") (h2 : extractClassNameS src2 = "Main")
    (h : javaRunnableId frag1 src1 = javaRunnableId frag2 src2) :
    frag1 = frag2 := by
  unfold javaRunnableId generateRandomExecutableName at h
  rw [h1, h2] at h
  exact sappend_cancel_left (sappend_cancel_right (sappend_cancel_right h))

theorem javaArtifactPath_inj {frag1 frag2 src1 src2 : String}
    (h1 : extractClassNameS src1 = "Main") (h2 : extractClassNameS src2 = "Main")
    (h : javaArtifactPath frag1 src1 = javaArtifactPath frag2 src2) :
    frag1 = frag2 := by
  unfold javaArtifactPath at h
  exact javaRunnableId_inj h1 h2
    (sappend_cancel_right (sappend_cancel_left h))

/-- Claim C2, counterexample: the names are built from the random
8-character alphanumeric fragment alone, so a pair of executions whose
draws coincide — a possible outcome of `RandomStringUtils.randomAlphanumeric(8)`
— produces identical runnable identifiers and identical artifact paths, and
the later source write (CREATE + TRUNCATE_EXISTING) replaces the earlier
execution's artifact: collisions are improbable, not structurally
impossible. -/
theorem javaNamingCollisionCounterexample :
    validFragment "Aa0Bb1Cc" ∧
    javaRunnableId "Aa0Bb1Cc" "public class Main { int x; }" =
      javaRunnableId "Aa0Bb1Cc" "public class Main { int y; }" ∧
    javaArtifactPath "Aa0Bb1Cc" "public class Main { int x; }" =
      javaArtifactPath "Aa0Bb1Cc" "public class Main { int y; }" ∧
    (applyWrites
        (applyWrites (fun _ => none)
          (javaExecute "public class Main { int x; }" none [] "Aa0Bb1Cc" 0).1)
        (javaExecute "public class Main { int y; }" none [] "Aa0Bb1Cc" 0).1)
      (javaArtifactPath "Aa0Bb1Cc" "public class Main { int x; }") ≠
      some (replaceClassNameS "public class Main { int x; }" "Main"
        "java_Aa0Bb1Cc_Main") := by
  refine ⟨by decide, by decide, by decide, ?_⟩
  decide

/-- Claim C2 as amended: two Java executions whose sources both declare a
type named `Main` receive distinct runnable identifiers and distinct
artifact paths *whenever their random fragments differ* (naming is injective
in the fragment), and then neither overwrites the other's artifact; under
equal fragments the names coincide (see the counterexample), so uniqueness
is probabilistic, not structural. -/
theorem javaNamingDistinctForDistinctFragments :
    ∀ (frag1 frag2 : String), frag1 ≠ frag2 →
    ∀ (src1 src2 : String),
    extractClassNameS src1 = "Main" → extractClassNameS src2 = "Main" →
    javaRunnableId frag1 src1 ≠ javaRunnableId frag2 src2 ∧
    javaArtifactPath frag1 src1 ≠ javaArtifactPath frag2 src2 ∧
    ∀ (args1 args2 : List String) (e1 e2 : Int) (fs : String → Option String),
      (applyWrites (applyWrites fs (javaExecute src1 none args1 frag1 e1).1)
          (javaExecute src2 none args2 frag2 e2).1)
        (javaArtifactPath frag1 src1) =
        some (replaceClassNameS src1 (extractClassNameS src1)
          (javaRunnableId frag1 src1)) ∧
      (applyWrites (applyWrites fs (javaExecute src1 none args1 frag1 e1).1)
          (javaExecute src2 none args2 frag2 e2).1)
        (javaArtifactPath frag2 src2) =
        some (replaceClassNameS src2 (extractClassNameS src2)
          (javaRunnableId frag2 src2)) := by
  intro frag1 frag2 hne src1 src2 h1 h2
  have hpath : javaArtifactPath frag1 src1 ≠ javaArtifactPath frag2 src2 :=
    fun h => hne (javaArtifactPath_inj h1 h2 h)
  refine ⟨fun h => hne (javaRunnableId_inj h1 h2 h), hpath, ?_⟩
  intro args1 args2 e1 e2 fs
  rw [javaExecute_writes, javaExecute_writes]
  constructor
  · rw [Function.update_noteq hpath, Function.update_same]
  · rw [Function.update_same]

/-- Witness for the amended C2: two concrete distinct fragments with two
`Main`-declaring sources. -/
theorem javaNamingDistinctForDistinctFragmentsWitness :
    javaRunnableId "Aa0Bb1Cc" "public class Main { int x; }" ≠
      javaRunnableId "Dd2Ee3Ff" "public class Main { int y; }" ∧
    javaArtifactPath "Aa0Bb1Cc" "public class Main { int x; }" ≠
      javaArtifactPath "Dd2Ee3Ff" "public class Main { int y; }" ∧
    (applyWrites
        (applyWrites (fun _ => none)
          (javaExecute "public class Main { int x; }" none [] "Aa0Bb1Cc" 0).1)
        (javaExecute "public class Main { int y; }" none [] "Dd2Ee3Ff" 0).1)
      (javaArtifactPath "Aa0Bb1Cc" "public class Main { int x; }") =
      some (replaceClassNameS "public class Main { int x; }"
        (extractClassNameS "public class Main { int x; }")
        (javaRunnableId "Aa0Bb1Cc" "public class Main { int x; }")) ∧
    (applyWrites
        (applyWrites (fun _ => none)
          (javaExecute "public class Main { int x; }" none [] "Aa0Bb1Cc" 0).1)
        (javaExecute "public class Main { int y; }" none [] "Dd2Ee3Ff" 0).1)
      (javaArtifactPath "Dd2Ee3Ff" "public class Main { int y; }") =
      some (replaceClassNameS "public class Main { int y; }"
        (extractClassNameS "public class Main { int y; }")
        (javaRunnableId "Dd2Ee3Ff" "public class Main { int y; }")) := by
  have h := javaNamingDistinctForDistinctFragments "Aa0Bb1Cc" "Dd2Ee3Ff"
    (by decide) "public class Main { int x; }" "public class Main { int y; }"
    (by decide) (by decide)
  obtain ⟨ha, hb, hc⟩ := h
  obtain ⟨hc1, hc2⟩ := hc [] [] 0 0 (fun _ => none)
  exact ⟨ha, hb, hc1, hc2⟩

/-- A session in the `Running` state: initialized, with stored writer and
process. -/
def runningSession : SessionState :=
  { initialized := some true, hasWriter := true, hasProcess := true }

/-- An environment whose I/O all succeeds and whose parser answers are
irrelevant to an initialized session. -/
def quietEnv : WsEnv :=
  { parsed := none, parseErrMsg := "", execIOFails := false, execIOMsg := "",
    stdinWriteFails := false, stdinWriteMsg := "" }

/-- Claim C3, counterexample: on a running session the handler writes the
inbound payload to process stdin exactly as received — it does not append a
line terminator.  For payload `"abc"` the data written is `"abc"`, not
`"abc" ++ "\n"`. -/
theorem stdinNewlineCounterexample :
    writtenStdin (handleTextMessage runningSession "abc" quietEnv).2 = ["abc"] ∧
    writtenStdin (handleTextMessage runningSession "abc" quietEnv).2 ≠
      ["abc" ++ "\n"] := by
  constructor
  · decide
  · decide

/-- Claim C3 as amended: for every inbound message received while the
session is Running (initialized, with a stdin writer), the handler writes
the message payload verbatim to the process stdin and flushes — no line
terminator is appended (any newline must already be part of the payload) —
and the session state is unchanged. -/
theorem stdinForwardedVerbatim :
    ∀ (st : SessionState) (payload : String) (env : WsEnv),
    st.initialized = some true → st.hasWriter = true →
    writtenStdin (handleTextMessage st payload env).2 = [payload] ∧
    (handleTextMessage st payload env).1 = st := by
  intro st payload env h1 h2
  cases hf : env.stdinWriteFails <;>
    simp [handleTextMessage, h1, h2, hf, writtenStdin]

/-- Witness for the amended C3 at a concrete running session and payload. -/
theorem stdinForwardedVerbatimWitness :
    writtenStdin (handleTextMessage runningSession "ab cd" quietEnv).2 =
      ["ab cd"] ∧
    (handleTextMessage runningSession "ab cd" quietEnv).1 = runningSession := by
  exact stdinForwardedVerbatim runningSession "ab cd" quietEnv (by decide)
    (by decide)

/-- Claim C9: while the session's initialized flag is unset (absent or
`false`) every inbound message is routed to execution-request handling —
the first effect is parsing the payload as an `ExecutionRequest`, and
nothing is ever written to stdin on that path; the state either stays
unchanged (any parse/validation/start failure) or becomes initialized with
the output reader started (successful start); and a message is forwarded to
stdin only when the flag is already `true`. -/
theorem firstMessageIsExecutionRequest :
    ∀ (st : SessionState) (payload : String) (env : WsEnv),
    ((st.initialized = none ∨ st.initialized = some false) →
      handleTextMessage st payload env = handleExecutionRequest st payload env) ∧
    ((handleExecutionRequest st payload env).2.head? =
      some (.parseRequest payload)) ∧
    (writtenStdin (handleExecutionRequest st payload env).2 = []) ∧
    ((handleExecutionRequest st payload env).1 = st ∨
      ((handleExecutionRequest st payload env).1.initialized = some true ∧
        WsEffect.startOutputReader ∈ (handleExecutionRequest st payload env).2)) ∧
    (writtenStdin (handleTextMessage st payload env).2 ≠ [] →
      st.initialized = some true) := by
  intro st payload env
  have hreq : ∀ P : (SessionState × List WsEffect) → Prop,
      (∀ msg : String, P (st, [WsEffect.parseRequest payload,
        WsEffect.sendText ("Error: " ++ msg ++ "\r\n"),
        WsEffect.closeServerError])) →
      P ({ initialized := some true, hasWriter := true, hasProcess := true },
        [WsEffect.parseRequest payload,
          WsEffect.execCalled ((env.parsed.getD
            ⟨"", "", none, []⟩).language),
          WsEffect.startOutputReader]) →
      P (handleExecutionRequest st payload env) := by
    intro P hfail hok
    unfold handleExecutionRequest
    cases hp : env.parsed with
    | none => exact hfail _
    | some req =>
      simp only
      split
      · exact hfail _
      · split
        · exact hfail _
        · split
          · exact hfail _
          · simpa [hp] using hok
  refine ⟨?_, ?_, ?_, ?_, ?_⟩
  · intro h
    simp [handleTextMessage, h]
  · exact hreq (fun r => r.2.head? = some (.parseRequest payload))
      (fun _ => rfl) rfl
  · exact hreq (fun r => writtenStdin r.2 = [])
      (fun _ => by simp [writtenStdin]) (by simp [writtenStdin])
  · exact hreq (fun r => r.1 = st ∨ (r.1.initialized = some true ∧
      WsEffect.startOutputReader ∈ r.2))
      (fun _ => Or.inl rfl) (Or.inr ⟨rfl, by simp⟩)
  · intro hne
    by_contra hinit
    have huninit : st.initialized = none ∨ st.initialized = some false := by
      rcases hi : st.initialized with _ | b
      · exact Or.inl rfl
      · cases b
        · exact Or.inr rfl
        · exact absurd hi hinit
    rw [show handleTextMessage st payload env =
      handleExecutionRequest st payload env by
        simp [handleTextMessage, huninit]] at hne
    exact hne (hreq (fun r => writtenStdin r.2 = [])
      (fun _ => by simp [writtenStdin]) (by simp [writtenStdin]))

/-- Witness for C9 at a fresh session with an unparsable payload. -/
theorem firstMessageIsExecutionRequestWitness :
    handleTextMessage freshSession "not json" quietEnv =
      handleExecutionRequest freshSession "not json" quietEnv ∧
    (handleExecutionRequest freshSession "not json" quietEnv).2.head? =
      some (.parseRequest "not json") ∧
    writtenStdin (handleExecutionRequest freshSession "not json" quietEnv).2 = [] := by
  have h := firstMessageIsExecutionRequest freshSession "not json" quietEnv
  exact ⟨h.1 (Or.inr rfl), h.2.1, h.2.2.1⟩

/-- The ordering demanded by the claim's reading of teardown: an
unconditional kill may only happen after an await of the grace period (kill
gently, await, *then* escalate).  `seenAwait` records whether an await has
occurred so far. -/
def escalationOrdered : Bool → List CleanupEvent → Bool
  | _, [] => true
  | seenAwait, .destroyForcibly :: rest =>
      seenAwait && escalationOrdered seenAwait rest
  | _, .awaitTermination _ :: rest => escalationOrdered true rest
  | seenAwait, .deleteAttempt _ _ :: rest => escalationOrdered seenAwait rest

/-- Every deletion attempt in the trace happens only once a kill has been
issued (`killed`) and its termination awaited (`awaited`); the two flags
give the initial state (already satisfied for a process that is not
alive). -/
def killedAwaitedBeforeDeletes : Bool → Bool → List CleanupEvent → Bool
  | _, _, [] => true
  | killed, awaited, .deleteAttempt _ _ :: rest =>
      killed && awaited && killedAwaitedBeforeDeletes killed awaited rest
  | _, awaited, .destroyForcibly :: rest =>
      killedAwaitedBeforeDeletes true awaited rest
  | killed, _, .awaitTermination _ :: rest =>
      killedAwaitedBeforeDeletes killed true rest

/-- The paths of the deletion attempts of a trace, in order. -/
def deleteAttemptPaths (tr : List CleanupEvent) : List String :=
  tr.filterMap fun e =>
    match e with
    | .deleteAttempt p _ => some p
    | _ => none

theorem deleteAttemptPaths_map (delOk : String → Bool) :
    ∀ l : List String,
    deleteAttemptPaths (l.map fun f => CleanupEvent.deleteAttempt f (delOk f))
      = l := by
  intro l
  induction l with
  | nil => rfl
  | cons a t ih => simpa [deleteAttemptPaths, List.filterMap_cons] using ih

theorem deleteAttemptPaths_cleanupWork (alive : Bool) (files : List String)
    (delOk : String → Bool) :
    deleteAttemptPaths (cleanupWork alive files delOk) = files := by
  cases alive
  · simpa [cleanupWork] using deleteAttemptPaths_map delOk files
  · have := deleteAttemptPaths_map delOk files
    simpa [cleanupWork, deleteAttemptPaths, List.filterMap_cons] using this

theorem killedAwaitedBeforeDeletes_deletes (delOk : String → Bool) :
    ∀ l : List String,
    killedAwaitedBeforeDeletes true true
      (l.map fun f => CleanupEvent.deleteAttempt f (delOk f)) = true := by
  intro l
  induction l with
  | nil => rfl
  | cons f rest ih => simpa [killedAwaitedBeforeDeletes] using ih

/-- Claim C4, counterexample: `forceCleanup` calls `destroyForcibly()` — the
unconditional kill — *first* and only then awaits termination for the
5-second grace period; there is no gentle kill followed by an awaited grace
period before escalating.  On an alive handle with one artifact the trace
is unconditional-kill, await, delete, which violates the claimed
await-before-unconditional-kill order. -/
theorem cleanupEscalationCounterexample :
    (forceCleanup ⟨true, ["/tmp/notjs/a.out"], false⟩ (fun _ => true)).2 =
      [CleanupEvent.destroyForcibly, CleanupEvent.awaitTermination 5,
        CleanupEvent.deleteAttempt "/tmp/notjs/a.out" true] ∧
    escalationOrdered false
      (forceCleanup ⟨true, ["/tmp/notjs/a.out"], false⟩ (fun _ => true)).2 =
      false := by
  constructor
  · decide
  · decide

/-- Claim C4 as amended: on a not-yet-cleaned handle whose process is alive,
teardown kills the process unconditionally (`destroyForcibly`), awaits its
termination with a bounded 5-second grace period, and only after the kill
has been attempted and awaited deletes the registered artifact paths, each
deletion attempted independently of earlier failures (failures are logged
and ignored); artifacts are never deleted while the process is alive
without an awaited kill attempt, and a dead process's artifacts are deleted
without any kill. -/
theorem forcedTeardownKillAwaitThenDelete :
    ∀ (h : Handle) (delOk : String → Bool), h.cleanedUp = false →
    (h.alive = true →
      (forceCleanup h delOk).2 =
        CleanupEvent.destroyForcibly :: CleanupEvent.awaitTermination 5 ::
          h.tempFiles.map (fun f => CleanupEvent.deleteAttempt f (delOk f))) ∧
    (h.alive = false →
      (forceCleanup h delOk).2 =
        h.tempFiles.map (fun f => CleanupEvent.deleteAttempt f (delOk f))) ∧
    killedAwaitedBeforeDeletes (!h.alive) (!h.alive)
      (forceCleanup h delOk).2 = true ∧
    deleteAttemptPaths (forceCleanup h delOk).2 = h.tempFiles ∧
    (forceCleanup h delOk).1.cleanedUp = true ∧
    (forceCleanup h delOk).1.tempFiles = [] := by
  intro h delOk hclean
  have htr : (forceCleanup h delOk).2 = cleanupWork h.alive h.tempFiles delOk := by
    simp [forceCleanup, hclean]
  have hst : (forceCleanup h delOk).1 =
      { h with cleanedUp := true, tempFiles := [] } := by
    simp [forceCleanup, hclean]
  refine ⟨fun ha => ?_, fun ha => ?_, ?_, ?_, ?_, ?_⟩
  · rw [htr]; simp [cleanupWork, ha]
  · rw [htr]; simp [cleanupWork, ha]
  · rw [htr]
    cases ha : h.alive
    · simpa [cleanupWork, ha] using
        killedAwaitedBeforeDeletes_deletes delOk h.tempFiles
    · simpa [cleanupWork, ha, killedAwaitedBeforeDeletes] using
        killedAwaitedBeforeDeletes_deletes delOk h.tempFiles
  · rw [htr, deleteAttemptPaths_cleanupWork]
  · rw [hst]
  · rw [hst]

/-- Witness for the amended C4 on a concrete alive handle with two
artifacts, the second of which fails to delete. -/
theorem forcedTeardownKillAwaitThenDeleteWitness :
    ((forceCleanup ⟨true, ["/tmp/notjs/a.c", "/tmp/notjs/a.out"], false⟩
        (fun f => f = "/tmp/notjs/a.c")).2 =
      CleanupEvent.destroyForcibly :: CleanupEvent.awaitTermination 5 ::
        ["/tmp/notjs/a.c", "/tmp/notjs/a.out"].map
          (fun f => CleanupEvent.deleteAttempt f
            (decide (f = "/tmp/notjs/a.c")))) ∧
    deleteAttemptPaths
      ((forceCleanup ⟨true, ["/tmp/notjs/a.c", "/tmp/notjs/a.out"], false⟩
        (fun f => f = "/tmp/notjs/a.c")).2) =
      ["/tmp/notjs/a.c", "/tmp/notjs/a.out"] := by
  have h := forcedTeardownKillAwaitThenDelete
    ⟨true, ["/tmp/notjs/a.c", "/tmp/notjs/a.out"], false⟩
    (fun f => f = "/tmp/notjs/a.c") rfl
  exact ⟨h.1 rfl, h.2.2.2.1⟩

/-- Claim C1: for every handle and every number `n ≥ 2` of concurrent
`forceCleanup` callers, under every interleaving of the callers' atomic
steps in which all callers finish, the teardown work (kill and artifact
deletion) appears in the global trace exactly once, exactly one caller
performed it, and every other caller finished having observed the
`cleanedUp` flag without killing or deleting anything. -/
theorem forceCleanupConcurrentExactlyOnce :
    ∀ (n : Nat), 2 ≤ n →
    ∀ (alive : Bool) (tempFiles : List String) (delOk : String → Bool)
      (sched : List (Fin n × Phase)),
    (∀ i, ((runSched alive tempFiles delOk sched (concInit n)).pcs i).isDone
      = true) →
    (runSched alive tempFiles delOk sched (concInit n)).trace =
      cleanupWork alive tempFiles delOk ∧
    ∃ w, (runSched alive tempFiles delOk sched (concInit n)).pcs w =
        .done true ∧
      ∀ j, j ≠ w →
        (runSched alive tempFiles delOk sched (concInit n)).pcs j =
          .done false := by
  intro n hn alive tempFiles delOk sched hdone
  obtain ⟨h1, h2, h3, h4⟩ :=
    @concInv_run n alive tempFiles delOk sched (concInit n) (concInv_init _)
  have hcl : (runSched alive tempFiles delOk sched (concInit n)).cleanedUp
      = true :=
    h2 ⟨0, by omega⟩ (hdone ⟨0, by omega⟩)
  refine ⟨by simpa [hcl] using h1, ?_⟩
  obtain ⟨w, hw, hothers⟩ := h4 hcl
  refine ⟨w, hw, fun j hj => ?_⟩
  have hdj := hdone j
  rcases hpc : (runSched alive tempFiles delOk sched (concInit n)).pcs j
    with _ | _ | b
  · rw [hpc] at hdj; simp [CallerPc.isDone] at hdj
  · rw [hpc] at hdj; simp [CallerPc.isDone] at hdj
  · cases b
    · rfl
    · exact absurd hpc (hothers j hj)

/-- Witness for C1: two concurrent callers on an alive handle with one
artifact, both racing through the fast path before either enters the
monitor; caller 0 wins, caller 1 observes the flag and does nothing. -/
theorem forceCleanupConcurrentExactlyOnceWitness :
    (runSched true ["/tmp/notjs/a.out"] (fun _ => true)
      [(⟨0, by decide⟩, Phase.outer), (⟨1, by decide⟩, Phase.outer),
        (⟨0, by decide⟩, Phase.lockBody), (⟨1, by decide⟩, Phase.lockBody)]
      (concInit 2)).trace =
      cleanupWork true ["/tmp/notjs/a.out"] (fun _ => true) ∧
    ∃ w, (runSched true ["/tmp/notjs/a.out"] (fun _ => true)
      [(⟨0, by decide⟩, Phase.outer), (⟨1, by decide⟩, Phase.outer),
        (⟨0, by decide⟩, Phase.lockBody), (⟨1, by decide⟩, Phase.lockBody)]
      (concInit 2)).pcs w = .done true ∧
      ∀ j, j ≠ w →
        (runSched true ["/tmp/notjs/a.out"] (fun _ => true)
          [(⟨0, by decide⟩, Phase.outer), (⟨1, by decide⟩, Phase.outer),
            (⟨0, by decide⟩, Phase.lockBody), (⟨1, by decide⟩, Phase.lockBody)]
          (concInit 2)).pcs j = .done false := by
  exact forceCleanupConcurrentExactlyOnce 2 (by decide) true
    ["/tmp/notjs/a.out"] (fun _ => true) _ (by decide)

/-! ### Scanner composition lemmas

Tools for computing `replaceAllPat` on inputs split into a region where the
pattern cannot match and a remainder. -/

/-- The character preceding the input position right after region `a`
(the last character of `a`, or `prev` when `a` is empty). -/
def prevAfter : Option Char → List Char → Option Char
  | prev, [] => prev
  | _, c :: rest => prevAfter (some c) rest

/-- The pattern fails to match at every position whose start lies inside
region `a`, when `a` is followed by `t`. -/
def noMatchThrough (w : Bool) (old : List Char) :
    Option Char → List Char → List Char → Bool
  | _, [], _ => true
  | prev, c :: rest, t =>
    (tryMatchPat w old prev (c :: (rest ++ t))).isNone &&
      noMatchThrough w old (some c) rest t

theorem matchLiteral_some_eq {lit s r : List Char}
    (h : matchLiteral lit s = some r) : s = lit ++ r := by
  unfold matchLiteral at h
  split at h
  · rename_i hp
    obtain ⟨t, ht⟩ := List.isPrefixOf_iff_prefix.mp hp
    cases h
    conv_lhs => rw [← ht]
    rw [← ht, List.drop_left]
  · cases h

theorem word_not_space {c : Char} (h : isWordChar c = true) :
    isRegexSpace c = false := by
  by_contra hs
  have hs' : isRegexSpace c = true := by
    cases hx : isRegexSpace c
    · exact absurd hx hs
    · rfl
  simp only [isRegexSpace, Bool.or_eq_true, decide_eq_true_eq] at hs'
  rcases hs' with ((((rfl | rfl) | rfl) | rfl) | rfl) | rfl <;>
    simp [isWordChar] at h

/-- A match of the bare pattern needs the literal `class` and then at least
one `\s` character; if the first six characters of the input are all word
characters, no match can start here. -/
theorem tryMatchPat_bare_none_of_word6 {old : List Char} {prev : Option Char}
    {s : List Char} (h : ∀ c ∈ s.take 6, isWordChar c = true) :
    tryMatchPat false old prev s = none := by
  unfold tryMatchPat
  split
  · rfl
  · have hkws : matchKws false s = matchLiteral "class".data s := by
      unfold matchKws; rfl
    rw [hkws]
    cases hm : matchLiteral "class".data s with
    | none => rfl
    | some s₃ =>
      have hs : s = "class".data ++ s₃ := matchLiteral_some_eq hm
      cases s₃ with
      | nil => rfl
      | cons c₃ t₃ =>
        have hc₃ : c₃ ∈ s.take 6 := by
          subst hs
          rw [List.take_append_eq_append_take]
          refine List.mem_append_right _ ?_
          simp
        have hsp : isRegexSpace c₃ = false := word_not_space (h c₃ hc₃)
        have hmunch : munchSpaces1 (c₃ :: t₃) = none := by
          unfold munchSpaces1
          rw [hsp]
          rfl
        simp only [hmunch]

/-- If no `public` literal starts at the head, the public pattern fails. -/
theorem tryMatchPat_public_none_of_noPub {old : List Char}
    {prev : Option Char} {s : List Char}
    (h : matchLiteral "public".data s = none) :
    tryMatchPat true old prev s = none := by
  unfold tryMatchPat
  split
  · rfl
  · have hkws : matchKws true s = none := by
      unfold matchKws
      rw [if_pos rfl, h]
    rw [hkws]

/-- If no `class` literal starts at the head, the bare pattern fails. -/
theorem tryMatchPat_bare_none_of_noKw {old : List Char}
    {prev : Option Char} {s : List Char}
    (h : matchLiteral "class".data s = none) :
    tryMatchPat false old prev s = none := by
  unfold tryMatchPat
  split
  · rfl
  · have hkws : matchKws false s = none := by
      unfold matchKws
      rw [if_neg (by simp), h]
    rw [hkws]

/-- Scanning an input that opens with a match: emit the replacement and
continue after the matched region. -/
theorem scan_match_head {w : Bool} {old repl : List Char} {prev : Option Char}
    {s : List Char} {lastc : Char} {rest : List Char}
    (h : tryMatchPat w old prev s = some (lastc, rest)) :
    replaceAllPat w old repl prev s =
      repl ++ replaceAllPat w old repl (some lastc) rest := by
  cases s with
  | nil =>
    exact absurd (tryMatchPat_length h) (by simp)
  | cons c t =>
    rw [replaceAllPat_cons, h]

/-- Scanning a region where the pattern never matches copies it verbatim. -/
theorem scan_append_of_noMatchThrough {w : Bool} {old repl : List Char} :
    ∀ {a : List Char} {prev : Option Char} {t : List Char},
    noMatchThrough w old prev a t = true →
    replaceAllPat w old repl prev (a ++ t) =
      a ++ replaceAllPat w old repl (prevAfter prev a) t := by
  intro a
  induction a with
  | nil => intro prev t _; rfl
  | cons c rest ih =>
    intro prev t h
    unfold noMatchThrough at h
    rw [Bool.and_eq_true, Option.isNone_iff_eq_none] at h
    obtain ⟨hnone, hrest⟩ := h
    show replaceAllPat w old repl prev (c :: (rest ++ t)) = _
    rw [replaceAllPat_cons, hnone, ih hrest]
    rfl

/-- A text containing no `class` literal at any position is copied verbatim
by the bare pass, whatever the preceding character was. -/
def noKw : List Char → Bool
  | [] => true
  | c :: rest => (matchLiteral "class".data (c :: rest)).isNone && noKw rest

theorem scan_of_noKw {old repl : List Char} :
    ∀ {s : List Char}, noKw s = true → ∀ prev,
    replaceAllPat false old repl prev s = s := by
  intro s
  induction s with
  | nil => intro _ _; rfl
  | cons c rest ih =>
    intro h prev
    unfold noKw at h
    rw [Bool.and_eq_true, Option.isNone_iff_eq_none] at h
    obtain ⟨hnone, hrest⟩ := h
    rw [replaceAllPat_cons, tryMatchPat_bare_none_of_noKw hnone, ih hrest]

/-- A text containing no `public` literal at any position is copied
verbatim by the public pass. -/
def noPub : List Char → Bool
  | [] => true
  | c :: rest => (matchLiteral "public".data (c :: rest)).isNone && noPub rest

theorem scan_of_noPub {old repl : List Char} :
    ∀ {s : List Char}, noPub s = true → ∀ prev,
    replaceAllPat true old repl prev s = s := by
  intro s
  induction s with
  | nil => intro _ _; rfl
  | cons c rest ih =>
    intro h prev
    unfold noPub at h
    rw [Bool.and_eq_true, Option.isNone_iff_eq_none] at h
    obtain ⟨hnone, hrest⟩ := h
    rw [replaceAllPat_cons, tryMatchPat_public_none_of_noPub hnone, ih hrest]

/-- The bare pass copies a region of word characters verbatim when the five
characters that follow the region are word characters too (the pattern
needs a `\s` within its first six characters). -/
theorem scan_wordRegion {old repl : List Char} {B : List Char}
    (hB : ∀ c ∈ B.take 5, isWordChar c = true) :
    ∀ (d : List Char), (∀ c ∈ d, isWordChar c = true) →
    ∀ prev, replaceAllPat false old repl prev (d ++ B) =
      d ++ replaceAllPat false old repl (prevAfter prev d) B := by
  intro d
  induction d with
  | nil => intro _ prev; rfl
  | cons c t ih =>
    intro hword prev
    have hnone : tryMatchPat false old prev (c :: (t ++ B)) = none := by
      refine tryMatchPat_bare_none_of_word6 ?_
      intro x hx
      rw [show (6 : Nat) = 5 + 1 from rfl, List.take_succ_cons] at hx
      rcases List.mem_cons.mp hx with rfl | hx'
      · exact hword x (List.mem_cons_self _ _)
      · rw [List.take_append_eq_append_take] at hx'
        rcases List.mem_append.mp hx' with hxa | hxb
        · exact hword x (List.mem_cons_of_mem _ (List.mem_of_mem_take hxa))
        · refine hB x ?_
          have hsub : B.take (5 - t.length) = (B.take 5).take (5 - t.length) := by
            rw [List.take_take]
            congr 1
            omega
          rw [hsub] at hxb
          exact List.mem_of_mem_take hxb
    show replaceAllPat false old repl prev (c :: (t ++ B)) = _
    rw [replaceAllPat_cons, hnone,
      ih (fun x hx => hword x (List.mem_cons_of_mem _ hx)) (some c)]
    rfl

/-! ### Extraction lemmas -/

theorem isPrefixOf_append (pat rest : List Char) :
    pat.isPrefixOf (pat ++ rest) = true :=
  List.isPrefixOf_iff_prefix.mpr (List.prefix_append pat rest)

theorem afterFirst_head {pat s : List Char}
    (h : pat.isPrefixOf s = true) :
    afterFirst pat s = some (s.drop pat.length) := by
  cases s with
  | nil =>
    unfold afterFirst
    rw [if_pos h, List.drop_nil]
  | cons c t =>
    unfold afterFirst
    rw [if_pos h]

/-- Whether the first character of `b` (if any) stops the class-name
scan. -/
def headStops : List Char → Bool
  | [] => true
  | c :: _ => isStopChar c

theorem takeWhile_append_of_all {p : Char → Bool} :
    ∀ {xs ys : List Char}, (∀ c ∈ xs, p c = true) →
    (∀ c, ys.head? = some c → p c = false) →
    (xs ++ ys).takeWhile p = xs := by
  intro xs
  induction xs with
  | nil =>
    intro ys _ hy
    cases ys with
    | nil => rfl
    | cons c t => simp [List.takeWhile_cons, hy c rfl]
  | cons a t ih =>
    intro ys hx hy
    simp only [List.cons_append, List.takeWhile_cons,
      hx a (List.mem_cons_self _ _), if_true]
    rw [ih (fun c hc => hx c (List.mem_cons_of_mem _ hc)) hy]

theorem dropWhile_eq_self_of_all {p : Char → Bool} {l : List Char}
    (h : ∀ c ∈ l, p c = false) : l.dropWhile p = l := by
  cases l with
  | nil => rfl
  | cons c t => simp [List.dropWhile_cons, h c (List.mem_cons_self _ _)]

theorem javaTrim_eq_self {l : List Char}
    (h : ∀ c ∈ l, decide (c ≤ ' ') = false) : javaTrim l = l := by
  unfold javaTrim
  rw [dropWhile_eq_self_of_all h,
    dropWhile_eq_self_of_all (fun c hc => h c (List.mem_reverse.mp hc)),
    List.reverse_reverse]

theorem extractFrom_append {name b : List Char}
    (hident : ∀ c ∈ name, isStopChar c = false)
    (htrim : ∀ c ∈ name, decide (c ≤ ' ') = false)
    (hstop : headStops b = true) :
    extractFrom (name ++ b) = name := by
  unfold extractFrom
  rw [takeWhile_append_of_all (fun c hc => by simp [hident c hc])
    (fun c hc => by
      cases b with
      | nil => cases hc
      | cons x t =>
        cases hc
        simp [show isStopChar c = true from hstop]),
    javaTrim_eq_self htrim]

theorem hasSubstr_cons {pat t : List Char} (c : Char)
    (h : hasSubstr t pat = true) : hasSubstr (c :: t) pat = true := by
  unfold hasSubstr afterFirst
  split
  · rfl
  · exact h

theorem hasSubstr_of_prefix_append {q : List Char} :
    ∀ {p s : List Char}, (p ++ q).isPrefixOf s = true →
    hasSubstr s q = true := by
  intro p
  induction p with
  | nil =>
    intro s h
    unfold hasSubstr
    cases s with
    | nil =>
      unfold afterFirst
      rw [if_pos (by simpa using h)]
      rfl
    | cons c t =>
      unfold afterFirst
      rw [if_pos (by simpa using h)]
      rfl
  | cons a p' ih =>
    intro s h
    cases s with
    | nil => simp [List.isPrefixOf] at h
    | cons b t =>
      simp only [List.cons_append, List.isPrefixOf, Bool.and_eq_true] at h
      exact hasSubstr_cons b (ih h.2)

theorem hasSubstr_mono_pat {p q : List Char} :
    ∀ {s : List Char}, hasSubstr s (p ++ q) = true → hasSubstr s q = true := by
  intro s
  induction s with
  | nil =>
    intro h
    unfold hasSubstr afterFirst at h
    split at h
    · exact hasSubstr_of_prefix_append (by assumption)
    · cases h
  | cons c t ih =>
    intro h
    unfold hasSubstr afterFirst at h
    split at h
    · exact hasSubstr_of_prefix_append (by assumption)
    · exact hasSubstr_cons c (ih h)

theorem afterFirst_eq_none_of_not_hasSubstr {pat s : List Char}
    (h : hasSubstr s pat = false) : afterFirst pat s = none := by
  unfold hasSubstr at h
  cases haf : afterFirst pat s with
  | none => rfl
  | some r => rw [haf] at h; cases h

theorem scan_all_noMatch {w : Bool} {old repl : List Char}
    {prev : Option Char} {s : List Char}
    (h : noMatchThrough w old prev s [] = true) :
    replaceAllPat w old repl prev s = s := by
  have h2 := @scan_append_of_noMatchThrough w old repl s prev [] h
  simpa [replaceAllPat_nil] using h2

theorem alnum_word {c : Char} (h : (c.isAlpha || c.isDigit) = true) :
    isWordChar c = true := by
  simp only [isWordChar, h, Bool.true_or]

/-- Claim C7: the Java source-identifier rewrite.
The conjuncts formalise, in order:
1. the identifier after the first occurrence of the character sequence
   `"public class "` is extracted, reading up to the first whitespace,
   brace or generic bracket (stated for identifiers made of
   printable non-stop characters);
2. failing that, the identifier after the first occurrence of the bare
   sequence `"class "` is extracted the same way;
3. when no `"class "` sequence occurs at all the implicit identifier
   `Main` is assumed;
4. the new identifier is the random fragment (`java_` + draw), a
   separator `_`, and the original identifier;
5. substitution on a public-class source replaces exactly the whole-word
   occurrence of the identifier that follows the class-declaration keywords,
   leaving both other occurrences of `Main` (a field type and a constructor
   call) unchanged — for every alphanumeric random fragment;
6. the same for a bare-class source. -/
theorem javaIdentifierRewrite :
    (∀ name b : List Char,
      (∀ c ∈ name, isStopChar c = false) →
      (∀ c ∈ name, decide (c ≤ ' ') = false) →
      headStops b = true →
      extractClassName ("public class ".data ++ (name ++ b)) = name) ∧
    (∀ name b : List Char,
      (∀ c ∈ name, isStopChar c = false) →
      (∀ c ∈ name, decide (c ≤ ' ') = false) →
      headStops b = true →
      hasSubstr ("class ".data ++ (name ++ b)) "public class ".data = false →
      extractClassName ("class ".data ++ (name ++ b)) = name) ∧
    (∀ src : List Char, hasSubstr src "class ".data = false →
      extractClassName src = "Main".data) ∧
    (∀ frag src : String,
      (javaRunnableId frag src).data =
        "java_".data ++ frag.data ++ "_".data ++ (extractClassNameS src).data) ∧
    (∀ fragL : List Char, (∀ c ∈ fragL, (c.isAlpha || c.isDigit) = true) →
      replaceClassName
          "public class Main { static Main m = new Main(); }".data
          "Main".data
          ("java_".data ++ fragL ++ "_Main".data) =
        "public class java_".data ++ fragL ++
          "_Main { static Main m = new Main(); }".data) ∧
    (∀ fragL : List Char, (∀ c ∈ fragL, (c.isAlpha || c.isDigit) = true) →
      replaceClassName
          "class Main { Main m = new Main(); }".data
          "Main".data
          ("java_".data ++ fragL ++ "_Main".data) =
        "class java_".data ++ fragL ++
          "_Main { Main m = new Main(); }".data) := by
  refine ⟨?_, ?_, ?_, ?_, ?_, ?_⟩
  · -- extraction after "public class "
    intro name b hident htrim hstop
    unfold extractClassName
    rw [afterFirst_head (isPrefixOf_append _ _), List.drop_left]
    exact extractFrom_append hident htrim hstop
  · -- extraction after bare "class "
    intro name b hident htrim hstop hnopub
    unfold extractClassName
    rw [afterFirst_eq_none_of_not_hasSubstr hnopub,
      afterFirst_head (isPrefixOf_append _ _), List.drop_left]
    exact extractFrom_append hident htrim hstop
  · -- no declaration: implicit "Main"
    intro src h
    have hpub : hasSubstr src "public class ".data = false := by
      cases hp : hasSubstr src "public class ".data
      · rfl
      · have : hasSubstr src "class ".data = true := by
          have hsplit : "public class ".data =
              "public ".data ++ "class ".data := by decide
          rw [hsplit] at hp
          exact hasSubstr_mono_pat hp
        rw [this] at h
        cases h
    unfold extractClassName
    rw [afterFirst_eq_none_of_not_hasSubstr hpub,
      afterFirst_eq_none_of_not_hasSubstr h]
  · -- composition of the new identifier
    intro frag src
    have hj : ("java_" : String).data = "java".data ++ "_".data := by decide
    simp [javaRunnableId, generateRandomExecutableName, String.data_append,
      hj, List.append_assoc]
  · -- substitution, public-class source
    intro fragL halnum
    unfold replaceClassName
    have hm1 : tryMatchPat true "Main".data none
        "public class Main { static Main m = new Main(); }".data =
        some ('n', " { static Main m = new Main(); }".data) := by decide
    have htail : noMatchThrough true "Main".data (some 'n')
        " { static Main m = new Main(); }".data [] = true := by decide
    rw [scan_match_head hm1, scan_all_noMatch htail]
    have hassoc :
        ("public class ".data ++ ("java_".data ++ fragL ++ "_Main".data)) ++
          " { static Main m = new Main(); }".data =
        ("public class ".data ++ "java_".data) ++
          (fragL ++ ("_Main".data ++ " { static Main m = new Main(); }".data)) := by
      simp [List.append_assoc]
    rw [hassoc]
    have hA0 : noMatchThrough false "Main".data none
        ("public class ".data ++ "java_".data)
        (fragL ++ ("_Main".data ++
          " { static Main m = new Main(); }".data)) = true := rfl
    rw [scan_append_of_noMatchThrough hA0]
    have hB5 : ∀ c ∈ (("_Main".data ++
        " { static Main m = new Main(); }".data : List Char)).take 5,
        isWordChar c = true := by decide
    rw [scan_wordRegion hB5 fragL (fun c hc => alnum_word (halnum c hc))]
    have hnokw : noKw ("_Main".data ++
        " { static Main m = new Main(); }".data : List Char) = true := by
      decide
    rw [scan_of_noKw hnokw]
    have hA : ("public class ".data ++ "java_".data : List Char) =
        "public class java_".data := by decide
    have hB : ("_Main".data ++ " { static Main m = new Main(); }".data
        : List Char) = "_Main { static Main m = new Main(); }".data := by decide
    rw [hA, hB]
    simp [List.append_assoc]
  · -- substitution, bare-class source
    intro fragL halnum
    unfold replaceClassName
    have hnopub : noPub "class Main { Main m = new Main(); }".data = true := by
      decide
    rw [scan_of_noPub hnopub]
    have hm1 : tryMatchPat false "Main".data none
        "class Main { Main m = new Main(); }".data =
        some ('n', " { Main m = new Main(); }".data) := by decide
    have hnokw : noKw " { Main m = new Main(); }".data = true := by decide
    rw [scan_match_head hm1, scan_of_noKw hnokw]
    have hA : ("class ".data ++ ("java_".data ++ fragL ++ "_Main".data)) ++
        " { Main m = new Main(); }".data =
        "class java_".data ++
          (fragL ++ "_Main { Main m = new Main(); }".data) := by
      have h1 : ("class ".data ++ "java_".data : List Char) =
          "class java_".data := by decide
      have h2 : ("_Main".data ++ " { Main m = new Main(); }".data
          : List Char) = "_Main { Main m = new Main(); }".data := by decide
      rw [← h1, ← h2]
      simp [List.append_assoc]
    rw [hA]
    simp [List.append_assoc]

/-- Witness for C7: every conjunct instantiated at concrete sources,
identifiers and an 8-character alphanumeric fragment. -/
theorem javaIdentifierRewriteWitness :
    extractClassName ("public class ".data ++ ("Foo".data ++ " {}".data)) =
      "Foo".data ∧
    extractClassName ("class ".data ++ ("Bar".data ++ " {}".data)) =
      "Bar".data ∧
    extractClassName "void main() {}".data = "Main".data ∧
    (javaRunnableId "Aa0Bb1Cc" "public class Main {}").data =
      "java_".data ++ ("Aa0Bb1Cc" : String).data ++ "_".data ++
        (extractClassNameS "public class Main {}").data ∧
    replaceClassName "public class Main { static Main m = new Main(); }".data
        "Main".data ("java_".data ++ "Aa0Bb1Cc".data ++ "_Main".data) =
      "public class java_".data ++ "Aa0Bb1Cc".data ++
        "_Main { static Main m = new Main(); }".data ∧
    replaceClassName "class Main { Main m = new Main(); }".data
        "Main".data ("java_".data ++ "Aa0Bb1Cc".data ++ "_Main".data) =
      "class java_".data ++ "Aa0Bb1Cc".data ++
        "_Main { Main m = new Main(); }".data := by
  have h := javaIdentifierRewrite
  exact ⟨h.1 "Foo".data " {}".data (by decide) (by decide) (by decide),
    h.2.1 "Bar".data " {}".data (by decide) (by decide) (by decide) (by decide),
    h.2.2.1 "void main() {}".data (by decide),
    h.2.2.2.1 "Aa0Bb1Cc" "public class Main {}",
    h.2.2.2.2.1 "Aa0Bb1Cc".data (by decide),
    h.2.2.2.2.2 "Aa0Bb1Cc".data (by decide)⟩

end NotJS
